import Mathlib

/-!
# Verification of the chess engine wrapper and analysis service

Shallow embedding of the Stockfish engine wrapper (web-worker session:
`getBestMove`, `getTopMoves`, `stopCalculation`, the `onmessage` handler,
`parseUciMove`) and of the move-quality analysis service
(`analyzeMoveQuality`, `evaluationToCentipawns`).

The stateful session module is modelled as an explicit state machine:
the module-level mutable variables become fields of `EState`, promise
resolvers/rejecters become request slots identified by request ids, and
promise settlement, worker `postMessage` calls and uncaught exceptions
become an explicit event trace.  JavaScript promise semantics (only the
first resolve/reject of a promise counts) are modelled by a settlement
map in which later settlements of the same request are recorded as
ignored.  The model covers a session whose engine worker is initialized
and ready (`engine != null && isReady`), which is the configuration all
claims are about.
-/

namespace ChessEngine

/-! ## Move-quality analysis service (stockfishService, second revision)

The engine-facing parts (`spawn`, UCI I/O) are external effects; the
evaluations they deliver are taken as inputs here.  Everything below the
two `getEngineAnalysis` calls in `analyzeMoveQuality` is embedded
faithfully. -/

/-- A chess side, as the strings `'white'`/`'black'` in the source. -/
inductive Player where
  | white
  | black
deriving DecidableEq

/-- The opposite side.  `analyzeMoveQuality` computes `playerJustMoved`
as the opposite of the side to move in `fenAfter`. -/
def Player.other : Player → Player
  | .white => .black
  | .black => .white

/-- A parsed engine evaluation: `{ type: 'cp' | 'mate'; value: number }`. -/
inductive Ev where
  | cp (value : Int)
  | mate (value : Int)
deriving DecidableEq

/-- `evaluation.type === 'mate'`. -/
def Ev.isMate : Ev → Bool
  | .mate _ => true
  | .cp _ => false

/-- `evaluation.type === 'cp'`. -/
def Ev.isCp : Ev → Bool
  | .cp _ => true
  | .mate _ => false

/-- `evaluation.value`. -/
def Ev.value : Ev → Int
  | .cp v => v
  | .mate v => v

/-- The four move-quality labels of `MoveQualityAnalysis.quality`. -/
inductive Quality where
  | blunder
  | mistake
  | inaccuracy
  | good
deriving DecidableEq

/-- `evaluationToCentipawns(evaluation, sideToMove, targetPlayer)`:
Stockfish evaluations are from the side-to-move's perspective; a mate
score is collapsed to `±10000`, and the value is kept when
`sideToMove === targetPlayer` and negated otherwise. -/
def evaluationToCentipawns (evaluation : Ev) (sideToMove targetPlayer : Player) : Int :=
  match evaluation with
  | .mate v =>
      let mateValue : Int := if v > 0 then 10000 else -10000
      if sideToMove = targetPlayer then mateValue else -mateValue
  | .cp v =>
      if sideToMove = targetPlayer then v else -v

/-- The threshold classification of `analyzeMoveQuality` before the mate
overrides: `evalLoss >= 200` blunder, `>= 100` mistake, `>= 50`
inaccuracy, else good. -/
def classifyLoss (evalLoss : Int) : Quality :=
  if evalLoss ≥ 200 then .blunder
  else if evalLoss ≥ 100 then .mistake
  else if evalLoss ≥ 50 then .inaccuracy
  else .good

/-- The classification logic of `analyzeMoveQuality(fenBefore, fenAfter,
depth)` after the two engine analyses returned: `evalBefore`/`evalAfter`
are the parsed evaluations, `sideToMoveBefore`/`sideToMoveAfter` the
turns of the two FENs, and `playerJustMoved` the opposite of
`sideToMoveAfter`.  Mirrors lines 565–605 of the service: perspective
conversion, `evalDelta`, threshold classification and the two mate
overrides (which test the raw `evalBefore.value`/`evalAfter.value`). -/
def moveQualityCore (evalBefore evalAfter : Ev)
    (sideToMoveBefore sideToMoveAfter playerJustMoved : Player) : Quality :=
  let cpBefore := evaluationToCentipawns evalBefore sideToMoveBefore playerJustMoved
  let cpAfter := evaluationToCentipawns evalAfter sideToMoveAfter playerJustMoved
  let evalDelta := cpAfter - cpBefore
  let evalLoss := -evalDelta
  let base := classifyLoss evalLoss
  if evalBefore.isMate ∧ evalBefore.value > 0 ∧
      (evalAfter.isCp ∨ (evalAfter.isMate ∧ evalAfter.value < 0)) then
    .blunder
  else if evalAfter.isMate ∧ evalAfter.value < 0 then
    .blunder
  else
    base

/-- `analyzeMoveQuality`'s quality output as a function of the two parsed
evaluations and the turns of `fenBefore`/`fenAfter`:
`playerJustMoved = other (turn fenAfter)`. -/
def analyzeMoveQuality (evalBefore evalAfter : Ev)
    (turnBefore turnAfter : Player) : Quality :=
  moveQualityCore evalBefore evalAfter turnBefore turnAfter turnAfter.other

/-- The quality thresholds exactly as the specification words them:
loss ≥ 200 blunder, 100 ≤ loss ≤ 199 mistake, 50 ≤ loss ≤ 99 inaccuracy,
loss < 50 good. -/
def qualitySpecOfLoss (evalLoss : Int) : Quality :=
  if evalLoss ≥ 200 then .blunder
  else if 100 ≤ evalLoss ∧ evalLoss ≤ 199 then .mistake
  else if 50 ≤ evalLoss ∧ evalLoss ≤ 99 then .inaccuracy
  else .good

theorem classifyLoss_eq_spec (l : Int) : classifyLoss l = qualitySpecOfLoss l := by
  unfold classifyLoss qualitySpecOfLoss
  split_ifs <;> first | rfl | omega

theorem other_other (p : Player) : p.other.other = p := by
  cases p <;> rfl

/-- Claim C5: for every move-quality comparison whose before and after
evaluations are both centipawn values, the quality label equals the
spec's function of the loss (the negated `evalDelta` in the mover's
perspective), and the boundary instances behave as stated: `evalDelta`
of exactly −200 is a blunder, −199 and −100 mistakes, −99 and −50
inaccuracies, −49 and any positive delta good. -/
theorem cp_quality_matches_loss_spec :
    (∀ (vB vA : Int) (tB tA : Player),
      analyzeMoveQuality (.cp vB) (.cp vA) tB tA =
        qualitySpecOfLoss
          (-(evaluationToCentipawns (.cp vA) tA tA.other -
             evaluationToCentipawns (.cp vB) tB tA.other)))
    ∧ analyzeMoveQuality (.cp 0) (.cp 200) .white .black = .blunder
    ∧ analyzeMoveQuality (.cp 0) (.cp 199) .white .black = .mistake
    ∧ analyzeMoveQuality (.cp 0) (.cp 100) .white .black = .mistake
    ∧ analyzeMoveQuality (.cp 0) (.cp 99) .white .black = .inaccuracy
    ∧ analyzeMoveQuality (.cp 0) (.cp 50) .white .black = .inaccuracy
    ∧ analyzeMoveQuality (.cp 0) (.cp 49) .white .black = .good
    ∧ analyzeMoveQuality (.cp 0) (.cp (-35)) .white .black = .good := by
  refine ⟨?_, by decide, by decide, by decide, by decide, by decide, by decide, by decide⟩
  intro vB vA tB tA
  unfold analyzeMoveQuality moveQualityCore
  simp [Ev.isMate, Ev.isCp, classifyLoss_eq_spec]

/-- Claim C6 (failing input): the claim requires that an after-position
evaluation that is a mate against the mover yields `blunder`.  With the
mover already being mated before (`evalBefore = mate (−5)`, mover to
move) and still being mated after (`evalAfter = mate (+3)`, opponent to
move, i.e. the opponent delivers mate — a mate against the mover in the
mover's perspective), the code classifies the move as `good`: its
override tests `evalAfter.value < 0`, but `evalAfter` is expressed in
the after-side-to-move's (the opponent's) perspective, where the
mate-against case has a positive value.  Symmetrically the override
fires when the mover delivers mate (`evalAfter.value < 0`), so a move
that finds a forced mate from an equal position is labelled `blunder`,
contradicting the code's own comment `Allowed opponent mate = blunder`. -/
theorem mate_against_mover_not_blunder :
    analyzeMoveQuality (.mate (-5)) (.mate 3) .white .black = .good
    ∧ analyzeMoveQuality (.cp 0) (.mate (-3)) .white .black = .blunder := by
  constructor
  · decide
  · decide

/-- Claim C7 (counterexample): the claim states that re-expressing an
evaluation of either kind for its own side-to-move perspective yields
its numeric value unchanged, but for `MateIn 3` the code yields 10000,
not 3. -/
theorem mate_value_not_preserved :
    evaluationToCentipawns (.mate 3) .white .white ≠ 3 := by
  decide

/-- Claim C7 (amended): for a `Centipawns` evaluation tagged with
side-to-move S and value V, `evaluationToCentipawns` yields V for
perspective S, −V for the opposite perspective, and round-trips to V
when the negated value (an evaluation from the opposite side's
perspective) is re-expressed for S; a `MateIn` evaluation is first
collapsed to `10000` when V > 0 and `−10000` otherwise, and that
collapsed value is kept for perspective S and negated for the opposite;
for both kinds the two perspectives are exact negations of each other. -/
theorem evaluationToCentipawns_perspective :
    ∀ (V : Int) (S T : Player) (e : Ev),
      evaluationToCentipawns (.cp V) S S = V
      ∧ evaluationToCentipawns (.cp V) S S.other = -V
      ∧ evaluationToCentipawns (.cp (evaluationToCentipawns (.cp V) S S.other)) S.other S = V
      ∧ evaluationToCentipawns (.mate V) S S = (if V > 0 then (10000 : Int) else -10000)
      ∧ evaluationToCentipawns (.mate V) S S.other =
          -(if V > 0 then (10000 : Int) else -10000)
      ∧ evaluationToCentipawns e S T = -evaluationToCentipawns e S T.other := by
  intro V S T e
  cases S <;> cases T <;> cases e <;>
    simp [evaluationToCentipawns, Player.other]

/-! ## `parseUciMove` (stockfish engine wrapper)

The input string is modelled as its list of characters; `slice(0, 2)`,
`slice(2, 4)` and `uciMove[4]` become `take`/`drop`.  The JS falsiness
check `!uciMove` coincides with the `length < 4` check on the empty
string and is folded into it. -/

/-- `[a-h]` (file part of the square regex `^[a-h][1-8]$`). -/
def isFileChar (c : Char) : Bool := 'a' ≤ c && c ≤ 'h'

/-- `[1-8]` (rank part of the square regex `^[a-h][1-8]$`). -/
def isRankChar (c : Char) : Bool := '1' ≤ c && c ≤ '8'

/-- `squareRegex.test(s)` for `squareRegex = /^[a-h][1-8]$/`. -/
def isSquare : List Char → Bool
  | [f, r] => isFileChar f && isRankChar r
  | _ => false

/-- The result object `{ from, to, promotion? }` of `parseUciMove`. -/
structure ParsedMove where
  fromSq : List Char
  toSq : List Char
  promotion : Option Char
deriving DecidableEq

/-- `['q', 'r', 'b', 'n']`, the accepted promotion pieces. -/
def promotionPieces : List Char := ['q', 'r', 'b', 'n']

/-- `parseUciMove(uciMove)`: throws (modelled as `Except.error`) when the
token is shorter than 4 characters, when either square fails the square
regex, or when a fifth character is present whose lower-cased form is
not in `promotionPieces`; otherwise returns the decomposition.
Characters beyond index 4 are never examined by the source. -/
def parseUciMove (uciMove : List Char) : Except String ParsedMove :=
  if uciMove.length < 4 then
    .error "Invalid UCI move format"
  else
    let f := uciMove.take 2
    let t := (uciMove.drop 2).take 2
    let promotion := (uciMove.drop 4).head?
    if !(isSquare f && isSquare t) then
      .error "Invalid square format in UCI move"
    else
      match promotion with
      | some p =>
          if promotionPieces.contains p.toLower then .ok ⟨f, t, some p⟩
          else .error "Invalid promotion piece in UCI move"
      | none => .ok ⟨f, t, none⟩

/-- `true` iff the parse succeeded. -/
def exceptOk {ε α : Type} : Except ε α → Bool
  | .ok _ => true
  | .error _ => false

/-- The token shapes `parseUciMove` actually accepts: length at least 4,
the first four characters form two squares, and the fifth character
(when present) lower-cases to a promotion piece; anything after the
fifth character is ignored. -/
def uciShapeOk (u : List Char) : Bool :=
  decide (4 ≤ u.length) && isSquare (u.take 2) && isSquare ((u.drop 2).take 2) &&
    (match (u.drop 4).head? with
     | some p => promotionPieces.contains p.toLower
     | none => true)

/-- Claim C8 (counterexample): the claim requires a parse error on every
token with extra trailing characters and on promotion letters outside
lowercase `q,r,b,n`, but the source accepts `"e2e4qx"` (six characters;
everything after index 4 is ignored) and `"e7e8Q"` (uppercase promotion,
compared lower-cased but returned as-is). -/
theorem parseUciMove_accepts_malformed :
    parseUciMove ['e', '2', 'e', '4', 'q', 'x'] =
      .ok ⟨['e', '2'], ['e', '4'], some 'q'⟩
    ∧ parseUciMove ['e', '7', 'e', '8', 'Q'] =
      .ok ⟨['e', '7'], ['e', '8'], some 'Q'⟩ := by
  constructor
  · rfl
  · rfl

/-- Claim C8 (amended): `parseUciMove` succeeds exactly on the tokens
accepted by `uciShapeOk` — length ≥ 4 (not 4–5), both squares
well-formed, and the fifth character, when present, lower-casing into
`{q,r,b,n}` (so uppercase promotion letters are accepted and characters
past the fifth are ignored) — and on success returns the first two
characters, the next two, and the fifth character verbatim; every other
input yields a parse error. -/
theorem parseUciMove_characterization :
    ∀ u : List Char,
      exceptOk (parseUciMove u) = uciShapeOk u
      ∧ (uciShapeOk u = true →
          parseUciMove u = .ok ⟨u.take 2, (u.drop 2).take 2, (u.drop 4).head?⟩) := by
  intro u
  unfold parseUciMove uciShapeOk
  by_cases hlen : u.length < 4
  · have h4 : ¬(4 ≤ u.length) := by omega
    simp [hlen, h4, exceptOk]
  · have h4 : 4 ≤ u.length := by omega
    cases h1 : isSquare (u.take 2) <;> cases h2 : isSquare ((u.drop 2).take 2) <;>
      cases hp : (u.drop 4).head? <;>
        simp [hlen, h4, h1, h2, hp, exceptOk] <;>
          (try (rename_i p
                by_cases hpr : p.toLower ∈ promotionPieces <;> simp [hpr, exceptOk]))

/-- Closed instance of the characterization at a plain 4-character token
and at a token with a malformed square. -/
theorem parseUciMove_characterization_witness :
    parseUciMove ['e', '2', 'e', '4'] =
      .ok ⟨['e', '2'], ['e', '4'], none⟩
    ∧ exceptOk (parseUciMove ['e', '2', 'e', '9']) = uciShapeOk ['e', '2', 'e', '9'] := by
  constructor
  · exact (parseUciMove_characterization ['e', '2', 'e', '4']).2 (by rfl)
  · exact (parseUciMove_characterization ['e', '2', 'e', '9']).1

/-! ## Engine session state machine (stockfish engine wrapper)

The module-level mutable variables of the wrapper become the fields of
`EState`.  A pending promise's `resolve`/`reject` pair is identified by
a request id (`currentResolve`/`currentReject` are always assigned and
cleared together, and so are `topMovesResolve`/`topMovesReject`, so one
`Option Nat` per pair is faithful).  `setTimeout` handles become
`Timer` values carrying the kind and the request id their closure
captured; `liveTimers` holds the scheduled-and-not-yet-cleared timers,
while `moveTimeout` is the variable that holds (only) the most recently
stored handle.  Settling an already-settled promise is a no-op in
JavaScript; `settleReq` records it as an `ignoredSettle` event. -/

/-- The two request kinds of the wrapper. -/
inductive ReqKind where
  | single
  | top
deriving DecidableEq

/-- The `Error` values the wrapper rejects promises with. -/
inductive EngErr where
  | superseded
  | timeoutErr
  | stopped
  | noValidMove
  | noCandidates
  | engineErrorMsg (text : String)
deriving DecidableEq

/-- How a promise settled: resolved with a move, resolved with a move
list, or rejected. -/
inductive Outcome where
  | move (m : String)
  | moves (ms : List String)
  | err (e : EngErr)
deriving DecidableEq

/-- A `setTimeout` handle: the closure captures the `reject` of one
request, identified here by kind and id. -/
structure Timer where
  kind : ReqKind
  req : Nat
deriving DecidableEq

/-- Observable behaviour: promise settlements (first one per request
counts), `postMessage` calls to the worker, and an uncaught `TypeError`
from invoking a null callback. -/
inductive Event where
  | settle (r : Nat) (o : Outcome)
  | ignoredSettle (r : Nat)
  | post (msg : String)
  | tsThrow
deriving DecidableEq

/-- The wrapper's module state (for a session whose worker is
initialized and ready). -/
structure EState where
  current : Option Nat
  top : Option Nat
  topMoves : List (Nat × String)
  expectedMultipv : Nat
  moveTimeout : Option Timer
  liveTimers : List Timer
  settled : List (Nat × Outcome)
  kinds : List (Nat × ReqKind)
  nextId : Nat
deriving DecidableEq

/-- The state right after `initEngine()` resolved. -/
def initState : EState :=
  ⟨none, none, [], 0, none, [], [], [], 0⟩

/-- JS `Map.set`: overwrite in place if the key exists, else append. -/
def mapSet : List (Nat × String) → Nat → String → List (Nat × String)
  | [], k, v => [(k, v)]
  | (k', v') :: rest, k, v =>
      if k' = k then (k, v) :: rest else (k', v') :: mapSet rest k v

/-- JS `Map.get`. -/
def mapGet : List (Nat × String) → Nat → Option String
  | [], _ => none
  | (k', v') :: rest, k => if k' = k then some v' else mapGet rest k

/-- Settle request `r` with outcome `o`; a later settlement of an
already-settled promise is a no-op (recorded as `ignoredSettle`). -/
def settleReq (s : EState) (r : Nat) (o : Outcome) : EState × List Event :=
  match s.settled.lookup r with
  | some _ => (s, [.ignoredSettle r])
  | none => ({ s with settled := (r, o) :: s.settled }, [.settle r o])

/-- `if (moveTimeout) { clearTimeout(moveTimeout); moveTimeout = null }`:
the stored handle's timer (if any) can no longer fire, and the variable
is nulled either way. -/
def clearMT (s : EState) : EState :=
  { s with moveTimeout := none,
           liveTimers :=
             match s.moveTimeout with
             | none => s.liveTimers
             | some t => s.liveTimers.erase t }

/-- `stopCalculation()`: post `stop`, clear the stored timeout handle,
reject both pending promises (if any) with `Calculation stopped`, and
clear all request state.  It does **not** reset the multipv option. -/
def stopCalc (s : EState) : EState × List Event :=
  let s1 := clearMT s
  let p2 :=
    match s1.current with
    | some r => settleReq s1 r (.err .stopped)
    | none => (s1, [])
  let p3 :=
    match p2.1.top with
    | some r => settleReq p2.1 r (.err .stopped)
    | none => (p2.1, [])
  ({ p3.1 with current := none, top := none, topMoves := [], expectedMultipv := 0 },
   [Event.post "stop"] ++ p2.2 ++ p3.2)

/-- `getBestMove(fen, depth)` on a ready engine: reject a previous
pending single-move promise with `New move requested` (clearing the
stored timeout first), install the new resolver pair, arm a fresh
30-second timer whose callback captured the new `reject`, and post the
`position`/`go` commands.  Note that the previous pair is merely
overwritten, and that a pending top-moves request is left untouched
(its timer handle in `moveTimeout` is overwritten without being
cleared when no single-move request was pending). -/
def stepGetBestMove (s : EState) (fen : String) (depth : Int) : EState × List Event :=
  let p1 :=
    match s.current with
    | some rOld =>
        let sA := clearMT s
        settleReq sA rOld (.err .superseded)
    | none => (s, [])
  let r := p1.1.nextId
  let t : Timer := ⟨.single, r⟩
  ({ p1.1 with current := some r, moveTimeout := some t,
               liveTimers := t :: p1.1.liveTimers,
               kinds := (r, ReqKind.single) :: p1.1.kinds, nextId := r + 1 },
   p1.2 ++ [.post ("position fen " ++ fen), .post ("go depth " ++ toString depth)])

/-- `Math.max(1, Math.min(5, count))`. -/
def clampCount (count : Int) : Nat := (max 1 (min 5 count)).toNat

/-- `getTopMoves(fen, depth, count)` on a ready engine: reject and clear
a pending single-move request and a pending top-moves request (each
with `New move requested`, clearing the stored timeout handle), install
the new top-moves resolver pair with a cleared accumulator and
`expectedMultipv = clampCount count`, arm a fresh timer, and post
`position`, `setoption multipv`, `go`. -/
def stepGetTopMoves (s : EState) (fen : String) (depth : Int) (count : Int) :
    EState × List Event :=
  let p1 :=
    match s.current with
    | some rOld =>
        let sA := clearMT s
        let pB := settleReq sA rOld (.err .superseded)
        ({ pB.1 with current := none }, pB.2)
    | none => (s, [])
  let p2 :=
    match p1.1.top with
    | some rOld =>
        let sA := clearMT p1.1
        let pB := settleReq sA rOld (.err .superseded)
        ({ pB.1 with top := none, topMoves := [], expectedMultipv := 0 }, pB.2)
    | none => (p1.1, [])
  let r := p2.1.nextId
  let n := clampCount count
  let t : Timer := ⟨.top, r⟩
  ({ p2.1 with top := some r, topMoves := [], expectedMultipv := n,
               moveTimeout := some t, liveTimers := t :: p2.1.liveTimers,
               kinds := (r, ReqKind.top) :: p2.1.kinds, nextId := r + 1 },
   p1.2 ++ p2.2 ++
     [.post ("position fen " ++ fen),
      .post ("setoption name multipv value " ++ toString n),
      .post ("go depth " ++ toString depth)])

/-- The `onmessage` branch for `info` lines while a top-moves request is
pending: when the line carries a `multipv N` field and its PV's first
move matched the move pattern, store the move under rank N (a later
line for the same rank overwrites).  Lines without both fields, or
arriving with no pending top-moves request, are ignored. -/
def stepInfo (s : EState) (multipv : Option Nat) (pvMove : Option String) :
    EState × List Event :=
  match s.top, multipv, pvMove with
  | some _, some k, some m => ({ s with topMoves := mapSet s.topMoves k m }, [])
  | _, _, _ => (s, [])

/-- The `for (let i = 1; i <= expectedMultipv; i++)` collection loop:
moves for ranks `1..n` in rank order, skipping absent ranks. -/
def collectMoves (n : Nat) (tm : List (Nat × String)) : List String :=
  (List.range n).filterMap (fun i => mapGet tm (i + 1))

/-- The single-move part of the `bestmove` handler: resolve a pending
single-move request with the move (when present and not `(none)`) or
reject it with `No valid move found`; with no pending request, do
nothing. -/
def stepBestmoveSingle (s : EState) (mv : Option String) : EState × List Event :=
  match s.current with
  | some r =>
      match mv with
      | some m =>
          if m = "(none)" then
            let s1 := clearMT s
            let p2 := settleReq s1 r (.err .noValidMove)
            ({ p2.1 with current := none }, p2.2)
          else
            let s1 := clearMT s
            let p2 := settleReq s1 r (.move m)
            ({ p2.1 with current := none }, p2.2)
      | none =>
          let s1 := clearMT s
          let p2 := settleReq s1 r (.err .noValidMove)
          ({ p2.1 with current := none }, p2.2)
  | none => (s, [])

/-- The `onmessage` branch for `bestmove` lines.  `mv` is `parts[1]`
(`none` when absent).  With a pending top-moves request and a positive
`expectedMultipv`, collect the stored ranks; resolve with them when
nonempty, reject with `No valid moves found from multipv` otherwise —
in both cases clearing the timeout, posting the multipv reset, and
clearing the accumulator.  Otherwise the single-move branch runs. -/
def stepBestmove (s : EState) (mv : Option String) : EState × List Event :=
  match s.top with
  | some r =>
      if 0 < s.expectedMultipv then
        let arr := collectMoves s.expectedMultipv s.topMoves
        let s1 := clearMT s
        if arr.isEmpty then
          let p2 := settleReq s1 r (.err .noCandidates)
          ({ p2.1 with top := none, topMoves := [], expectedMultipv := 0 },
           [.post "setoption name multipv value 1"] ++ p2.2)
        else
          let p2 := settleReq s1 r (.moves arr)
          ({ p2.1 with top := none, topMoves := [], expectedMultipv := 0 },
           [.post "setoption name multipv value 1"] ++ p2.2)
      else
        stepBestmoveSingle s mv
  | none => stepBestmoveSingle s mv

/-- The `onmessage` branch for messages starting with `error`: reject
both pending promises with the message, clearing the stored timeout
handle and the top-moves accumulator.  No multipv reset is posted. -/
def stepError (s : EState) (text : String) : EState × List Event :=
  let p1 :=
    match s.current with
    | some r =>
        let sA := clearMT s
        let pB := settleReq sA r (.err (.engineErrorMsg text))
        ({ pB.1 with current := none }, pB.2)
    | none => (s, [])
  let p2 :=
    match p1.1.top with
    | some r =>
        let sA := clearMT p1.1
        let pB := settleReq sA r (.err (.engineErrorMsg text))
        ({ pB.1 with top := none, topMoves := [], expectedMultipv := 0 }, pB.2)
    | none => (p1.1, [])
  (p2.1, p1.2 ++ p2.2)

/-- A scheduled timer fires (possible only while it was neither cleared
nor already fired).  The single-move callback checks
`currentReject === reject` (slot still holds this timer's request),
then calls `stopCalculation()` — which rejects the promise with
`Calculation stopped` and nulls `currentReject` — and then invokes the
now-null `currentReject`, raising an uncaught `TypeError`.  The
top-moves callback saves its reject first, calls `stopCalculation()`,
posts the multipv reset, and calls the saved reject with the timeout
error — a no-op, the promise having just been rejected by
`stopCalculation()`. -/
def stepFire (s : EState) (t : Timer) : EState × List Event :=
  if t ∈ s.liveTimers then
    let s0 : EState := { s with liveTimers := s.liveTimers.erase t }
    match t.kind with
    | .single =>
        if s0.current = some t.req then
          let p1 := stopCalc s0
          (p1.1, p1.2 ++ [.tsThrow])
        else
          (s0, [])
    | .top =>
        if s0.top = some t.req then
          let p1 := stopCalc s0
          let p2 := settleReq p1.1 t.req (.err .timeoutErr)
          (p2.1, p1.2 ++ [.post "setoption name multipv value 1"] ++ p2.2)
        else
          (s0, [])
  else
    (s, [])

/-- External stimuli of the session: the public API calls and the worker
messages (pre-split into the fields the handler's regexes extract), plus
timer expiry. -/
inductive Cmd where
  | getBestMove (fen : String) (depth : Int)
  | getTopMoves (fen : String) (depth : Int) (count : Int)
  | stop
  | msgInfo (multipv : Option Nat) (pvMove : Option String)
  | msgBestmove (mv : Option String)
  | msgError (text : String)
  | fire (t : Timer)

/-- One step of the session. -/
def stepCmd (s : EState) : Cmd → EState × List Event
  | .getBestMove fen depth => stepGetBestMove s fen depth
  | .getTopMoves fen depth count => stepGetTopMoves s fen depth count
  | .stop => stopCalc s
  | .msgInfo multipv pvMove => stepInfo s multipv pvMove
  | .msgBestmove mv => stepBestmove s mv
  | .msgError text => stepError s text
  | .fire t => stepFire s t

/-- Run a command list from a state, discarding events. -/
def runCmds (s : EState) (cs : List Cmd) : EState :=
  cs.foldl (fun st c => (stepCmd st c).1) s

/-- States reachable from the post-`initEngine` state. -/
inductive Reachable : EState → Prop where
  | init : Reachable initState
  | next {s : EState} (h : Reachable s) (c : Cmd) : Reachable (stepCmd s c).1

/-! ### Association-list and helper-function lemmas -/

theorem lookup_cons_self {β : Type} (k : Nat) (v : β) (l : List (Nat × β)) :
    ((k, v) :: l).lookup k = some v := by
  simp [List.lookup]

theorem lookup_cons_ne {β : Type} {k k' : Nat} (v : β) (l : List (Nat × β)) (h : k' ≠ k) :
    ((k, v) :: l).lookup k' = l.lookup k' := by
  simp [List.lookup, beq_eq_false_iff_ne.mpr h]

theorem clearMT_current (s : EState) : (clearMT s).current = s.current := rfl

theorem clearMT_top (s : EState) : (clearMT s).top = s.top := rfl

theorem clearMT_topMoves (s : EState) : (clearMT s).topMoves = s.topMoves := rfl

theorem clearMT_expectedMultipv (s : EState) :
    (clearMT s).expectedMultipv = s.expectedMultipv := rfl

theorem clearMT_settled (s : EState) : (clearMT s).settled = s.settled := rfl

theorem clearMT_kinds (s : EState) : (clearMT s).kinds = s.kinds := rfl

theorem clearMT_nextId (s : EState) : (clearMT s).nextId = s.nextId := rfl

theorem clearMT_moveTimeout (s : EState) : (clearMT s).moveTimeout = none := rfl

theorem clearMT_id_of_mt_none {s : EState} (h : s.moveTimeout = none) :
    clearMT s = s := by
  cases s
  simp_all [clearMT]

theorem clearMT_liveTimers_sublist (s : EState) :
    List.Sublist (clearMT s).liveTimers s.liveTimers := by
  cases h : s.moveTimeout with
  | none => simp [clearMT, h]
  | some t => simp only [clearMT, h]; exact List.erase_sublist _ _

theorem clearMT_liveTimers_subset {s : EState} {t : Timer} :
    t ∈ (clearMT s).liveTimers → t ∈ s.liveTimers :=
  fun hm => (clearMT_liveTimers_sublist s).subset hm

theorem clearMT_liveTimers_nodup {s : EState}
    (h : (s.liveTimers.map Timer.req).Nodup) :
    ((clearMT s).liveTimers.map Timer.req).Nodup :=
  h.sublist (List.Sublist.map _ (clearMT_liveTimers_sublist s))

theorem settleReq_current (s : EState) (r : Nat) (o : Outcome) :
    (settleReq s r o).1.current = s.current := by
  cases h : s.settled.lookup r <;> simp [settleReq, h]

theorem settleReq_top (s : EState) (r : Nat) (o : Outcome) :
    (settleReq s r o).1.top = s.top := by
  cases h : s.settled.lookup r <;> simp [settleReq, h]

theorem settleReq_topMoves (s : EState) (r : Nat) (o : Outcome) :
    (settleReq s r o).1.topMoves = s.topMoves := by
  cases h : s.settled.lookup r <;> simp [settleReq, h]

theorem settleReq_expectedMultipv (s : EState) (r : Nat) (o : Outcome) :
    (settleReq s r o).1.expectedMultipv = s.expectedMultipv := by
  cases h : s.settled.lookup r <;> simp [settleReq, h]

theorem settleReq_moveTimeout (s : EState) (r : Nat) (o : Outcome) :
    (settleReq s r o).1.moveTimeout = s.moveTimeout := by
  cases h : s.settled.lookup r <;> simp [settleReq, h]

theorem settleReq_liveTimers (s : EState) (r : Nat) (o : Outcome) :
    (settleReq s r o).1.liveTimers = s.liveTimers := by
  cases h : s.settled.lookup r <;> simp [settleReq, h]

theorem settleReq_kinds (s : EState) (r : Nat) (o : Outcome) :
    (settleReq s r o).1.kinds = s.kinds := by
  cases h : s.settled.lookup r <;> simp [settleReq, h]

theorem settleReq_nextId (s : EState) (r : Nat) (o : Outcome) :
    (settleReq s r o).1.nextId = s.nextId := by
  cases h : s.settled.lookup r <;> simp [settleReq, h]

theorem settleReq_of_unsettled {s : EState} {r : Nat} (o : Outcome)
    (h : s.settled.lookup r = none) :
    settleReq s r o = ({ s with settled := (r, o) :: s.settled }, [.settle r o]) := by
  simp [settleReq, h]

theorem settleReq_lookup_self (s : EState) (r : Nat) (o : Outcome) :
    ((settleReq s r o).1.settled.lookup r).isSome = true := by
  cases h : s.settled.lookup r with
  | none => simp [settleReq, h, lookup_cons_self]
  | some o' => simp [settleReq, h]

theorem settleReq_lookup_ne {s : EState} {r r' : Nat} (o : Outcome) (h : r' ≠ r) :
    (settleReq s r o).1.settled.lookup r' = s.settled.lookup r' := by
  cases hl : s.settled.lookup r with
  | none => simp [settleReq, hl, lookup_cons_ne _ _ h]
  | some o' => simp [settleReq, hl]

theorem settleReq_none_mono {s : EState} {r r' : Nat} {o : Outcome}
    (h : (settleReq s r o).1.settled.lookup r' = none) :
    s.settled.lookup r' = none := by
  by_cases hr : r' = r
  · subst hr
    have := settleReq_lookup_self s r' o
    rw [h] at this
    simp at this
  · rwa [settleReq_lookup_ne o hr] at h

/-! ### Session invariant

The structural invariant of the wrapper over all reachable states.
`singleSlot`/`topSlot` say that every created-but-unsettled request
occupies its kind's slot (so, the slots being single `Option`s, at most
one request of each kind is ever outstanding); `currentKind`/`topKind`
say slot occupants are unsettled requests of the right kind;
the `Fresh` clauses say `nextId` is fresh; `currentTimer` says the
pending single-move request's own timer is the stored handle and live,
unless it was already cleared by a completion path. -/
structure Inv (s : EState) : Prop where
  singleSlot : ∀ r, s.kinds.lookup r = some ReqKind.single →
    s.settled.lookup r = none → s.current = some r
  topSlot : ∀ r, s.kinds.lookup r = some ReqKind.top →
    s.settled.lookup r = none → s.top = some r
  currentKind : ∀ r, s.current = some r →
    s.kinds.lookup r = some ReqKind.single ∧ s.settled.lookup r = none
  topKind : ∀ r, s.top = some r →
    s.kinds.lookup r = some ReqKind.top ∧ s.settled.lookup r = none
  kindsFresh : ∀ r, s.nextId ≤ r → s.kinds.lookup r = none
  settledFresh : ∀ r, s.nextId ≤ r → s.settled.lookup r = none
  timersFresh : ∀ t, t ∈ s.liveTimers → t.req < s.nextId
  mtFresh : ∀ t, s.moveTimeout = some t → t.req < s.nextId
  timersNodup : (s.liveTimers.map Timer.req).Nodup
  currentTimer : ∀ r, s.current = some r →
    (s.moveTimeout = some ⟨ReqKind.single, r⟩ ∧ (⟨ReqKind.single, r⟩ : Timer) ∈ s.liveTimers)
    ∨ (s.moveTimeout = none ∧ (⟨ReqKind.single, r⟩ : Timer) ∉ s.liveTimers)

theorem inv_init : Inv initState := by
  constructor <;> simp [initState, List.lookup]

/-- A slot occupant's id is below `nextId`. -/
theorem current_lt_nextId {s : EState} (hInv : Inv s) {r : Nat}
    (hc : s.current = some r) : r < s.nextId := by
  by_contra h
  have := hInv.kindsFresh r (Nat.le_of_not_lt h)
  have h2 := (hInv.currentKind r hc).1
  rw [this] at h2
  exact Option.noConfusion h2

theorem top_lt_nextId {s : EState} (hInv : Inv s) {r : Nat}
    (hc : s.top = some r) : r < s.nextId := by
  by_contra h
  have := hInv.kindsFresh r (Nat.le_of_not_lt h)
  have h2 := (hInv.topKind r hc).1
  rw [this] at h2
  exact Option.noConfusion h2

/-- The single and top slots never hold the same id. -/
theorem current_ne_top {s : EState} (hInv : Inv s) {r r' : Nat}
    (hc : s.current = some r) (ht : s.top = some r') : r ≠ r' := by
  intro h
  subst h
  have h1 := (hInv.currentKind r hc).1
  have h2 := (hInv.topKind r ht).1
  rw [h1] at h2
  exact ReqKind.noConfusion (Option.some.inj h2)

/-! ### Invariant preservation -/

/-- Arming a fresh single-move request on a state with no unsettled
single request preserves the invariant. -/
theorem inv_armSingle (sE : EState)
    (hNoSingle : ∀ r, sE.kinds.lookup r = some ReqKind.single →
      sE.settled.lookup r = none → False)
    (hTopSlot : ∀ r, sE.kinds.lookup r = some ReqKind.top →
      sE.settled.lookup r = none → sE.top = some r)
    (hTopKind : ∀ r, sE.top = some r →
      sE.kinds.lookup r = some ReqKind.top ∧ sE.settled.lookup r = none)
    (hKF : ∀ r, sE.nextId ≤ r → sE.kinds.lookup r = none)
    (hSF : ∀ r, sE.nextId ≤ r → sE.settled.lookup r = none)
    (hTF : ∀ t, t ∈ sE.liveTimers → t.req < sE.nextId)
    (hND : (sE.liveTimers.map Timer.req).Nodup) :
    Inv { sE with current := some sE.nextId,
                  moveTimeout := some ⟨ReqKind.single, sE.nextId⟩,
                  liveTimers := ⟨ReqKind.single, sE.nextId⟩ :: sE.liveTimers,
                  kinds := (sE.nextId, ReqKind.single) :: sE.kinds,
                  nextId := sE.nextId + 1 } := by
  constructor
  · intro r hk hs
    replace hk : ((sE.nextId, ReqKind.single) :: sE.kinds).lookup r = some ReqKind.single := hk
    replace hs : sE.settled.lookup r = none := hs
    show some sE.nextId = some r
    by_cases hrN : r = sE.nextId
    · rw [hrN]
    · rw [lookup_cons_ne _ _ hrN] at hk
      exact (hNoSingle r hk hs).elim
  · intro r hk hs
    replace hk : ((sE.nextId, ReqKind.single) :: sE.kinds).lookup r = some ReqKind.top := hk
    replace hs : sE.settled.lookup r = none := hs
    show sE.top = some r
    by_cases hrN : r = sE.nextId
    · subst hrN
      rw [lookup_cons_self] at hk
      exact ReqKind.noConfusion (Option.some.inj hk)
    · rw [lookup_cons_ne _ _ hrN] at hk
      exact hTopSlot r hk hs
  · intro r hc
    replace hc : some sE.nextId = some r := hc
    obtain rfl := Option.some.inj hc
    refine ⟨lookup_cons_self _ _ _, ?_⟩
    show sE.settled.lookup sE.nextId = none
    exact hSF _ (Nat.le_refl _)
  · intro r ht
    replace ht : sE.top = some r := ht
    obtain ⟨hk, hs⟩ := hTopKind r ht
    have hrN : r ≠ sE.nextId := by
      intro h
      rw [h, hKF sE.nextId (Nat.le_refl _)] at hk
      exact Option.noConfusion hk
    constructor
    · show ((sE.nextId, ReqKind.single) :: sE.kinds).lookup r = some ReqKind.top
      rw [lookup_cons_ne _ _ hrN]
      exact hk
    · exact hs
  · intro r hr
    replace hr : sE.nextId + 1 ≤ r := hr
    show ((sE.nextId, ReqKind.single) :: sE.kinds).lookup r = none
    have hrN : r ≠ sE.nextId := by omega
    rw [lookup_cons_ne _ _ hrN]
    exact hKF r (by omega)
  · intro r hr
    replace hr : sE.nextId + 1 ≤ r := hr
    show sE.settled.lookup r = none
    exact hSF r (by omega)
  · intro t htm
    replace htm : t ∈ (⟨ReqKind.single, sE.nextId⟩ : Timer) :: sE.liveTimers := htm
    show t.req < sE.nextId + 1
    rcases List.mem_cons.mp htm with h | h
    · rw [h]
      exact Nat.lt_succ_self _
    · exact Nat.lt_succ_of_lt (hTF t h)
  · intro t hmt
    replace hmt : some (⟨ReqKind.single, sE.nextId⟩ : Timer) = some t := hmt
    obtain rfl := Option.some.inj hmt
    show sE.nextId < sE.nextId + 1
    exact Nat.lt_succ_self _
  · show (((⟨ReqKind.single, sE.nextId⟩ : Timer) :: sE.liveTimers).map Timer.req).Nodup
    rw [List.map_cons]
    refine List.nodup_cons.mpr ⟨?_, hND⟩
    intro hmem
    obtain ⟨t, ht, hteq⟩ := List.mem_map.mp hmem
    replace hteq : t.req = sE.nextId := hteq
    have := hTF t ht
    omega
  · intro r hc
    replace hc : some sE.nextId = some r := hc
    obtain rfl := Option.some.inj hc
    left
    exact ⟨rfl, List.mem_cons_self _ _⟩

theorem lookup_cons_none {β : Type} {k r : Nat} {v : β} {l : List (Nat × β)}
    (h : ((k, v) :: l).lookup r = none) : r ≠ k ∧ l.lookup r = none := by
  have hne : r ≠ k := by
    intro he
    rw [he, lookup_cons_self] at h
    exact Option.noConfusion h
  rw [lookup_cons_ne _ _ hne] at h
  exact ⟨hne, h⟩

/-- After rejecting the pending single-move request, no unsettled
single-move request remains. -/
theorem no_unsettled_single_evict {s : EState} (hInv : Inv s) {rc : Nat}
    (hc : s.current = some rc) (o : Outcome) :
    ∀ r, s.kinds.lookup r = some ReqKind.single →
      ((rc, o) :: s.settled).lookup r = none → False := by
  intro r hk hs
  obtain ⟨hne, hs⟩ := lookup_cons_none hs
  have := hInv.singleSlot r hk hs
  rw [hc] at this
  exact hne (Option.some.inj this).symm

theorem no_unsettled_single_none {s : EState} (hInv : Inv s)
    (hc : s.current = none) :
    ∀ r, s.kinds.lookup r = some ReqKind.single → s.settled.lookup r = none → False := by
  intro r hk hs
  have := hInv.singleSlot r hk hs
  rw [hc] at this
  exact Option.noConfusion this

/-- After rejecting the pending top-moves request, no unsettled
top-moves request remains. -/
theorem no_unsettled_top_evict {s : EState} (hInv : Inv s) {rT : Nat}
    (ht : s.top = some rT) (o : Outcome) :
    ∀ r, s.kinds.lookup r = some ReqKind.top →
      ((rT, o) :: s.settled).lookup r = none → False := by
  intro r hk hs
  obtain ⟨hne, hs⟩ := lookup_cons_none hs
  have := hInv.topSlot r hk hs
  rw [ht] at this
  exact hne (Option.some.inj this).symm

theorem no_unsettled_top_none {s : EState} (hInv : Inv s)
    (ht : s.top = none) :
    ∀ r, s.kinds.lookup r = some ReqKind.top → s.settled.lookup r = none → False := by
  intro r hk hs
  have := hInv.topSlot r hk hs
  rw [ht] at this
  exact Option.noConfusion this

/-- `getBestMove` preserves the invariant. -/
theorem inv_stepGetBestMove {s : EState} (hInv : Inv s) (fen : String) (depth : Int) :
    Inv (stepGetBestMove s fen depth).1 := by
  cases hc : s.current with
  | none =>
      have hstep : (stepGetBestMove s fen depth).1 =
          { s with current := some s.nextId,
                   moveTimeout := some ⟨ReqKind.single, s.nextId⟩,
                   liveTimers := ⟨ReqKind.single, s.nextId⟩ :: s.liveTimers,
                   kinds := (s.nextId, ReqKind.single) :: s.kinds,
                   nextId := s.nextId + 1 } := by
        simp [stepGetBestMove, hc]
      rw [hstep]
      refine inv_armSingle _ ?_ hInv.topSlot hInv.topKind hInv.kindsFresh hInv.settledFresh
        hInv.timersFresh hInv.timersNodup
      intro r hk hs
      have := hInv.singleSlot r hk hs
      rw [hc] at this
      exact Option.noConfusion this
  | some rOld =>
      obtain ⟨hkOld, hsOld⟩ := hInv.currentKind rOld hc
      have hs1 : (clearMT s).settled.lookup rOld = none := hsOld
      have hstep : (stepGetBestMove s fen depth).1 =
          { clearMT s with
              settled := (rOld, Outcome.err .superseded) :: s.settled,
              current := some s.nextId,
              moveTimeout := some ⟨ReqKind.single, s.nextId⟩,
              liveTimers := ⟨ReqKind.single, s.nextId⟩ :: (clearMT s).liveTimers,
              kinds := (s.nextId, ReqKind.single) :: s.kinds,
              nextId := s.nextId + 1 } := by
        simp [stepGetBestMove, hc, settleReq_of_unsettled _ hs1, clearMT_nextId,
              clearMT_settled, clearMT_kinds]
      rw [hstep]
      have hrOldLt : rOld < s.nextId := current_lt_nextId hInv hc
      refine inv_armSingle ({ clearMT s with
          settled := (rOld, Outcome.err .superseded) :: s.settled }) ?_ ?_ ?_ ?_ ?_ ?_ ?_
      · intro r hk hs
        replace hk : s.kinds.lookup r = some ReqKind.single := hk
        replace hs : ((rOld, Outcome.err .superseded) :: s.settled).lookup r = none := hs
        have hne : r ≠ rOld := by
          intro h
          subst h
          rw [lookup_cons_self] at hs
          exact Option.noConfusion hs
        rw [lookup_cons_ne _ _ hne] at hs
        have := hInv.singleSlot r hk hs
        rw [hc] at this
        exact hne (Option.some.inj this).symm
      · intro r hk hs
        replace hk : s.kinds.lookup r = some ReqKind.top := hk
        replace hs : ((rOld, Outcome.err .superseded) :: s.settled).lookup r = none := hs
        have hne : r ≠ rOld := by
          intro h
          subst h
          rw [lookup_cons_self] at hs
          exact Option.noConfusion hs
        rw [lookup_cons_ne _ _ hne] at hs
        show s.top = some r
        exact hInv.topSlot r hk hs
      · intro r ht
        replace ht : s.top = some r := ht
        obtain ⟨hk, hs⟩ := hInv.topKind r ht
        refine ⟨hk, ?_⟩
        show ((rOld, Outcome.err .superseded) :: s.settled).lookup r = none
        have hne : r ≠ rOld := (current_ne_top hInv hc ht).symm
        rw [lookup_cons_ne _ _ hne]
        exact hs
      · intro r hr
        exact hInv.kindsFresh r hr
      · intro r hr
        replace hr : s.nextId ≤ r := hr
        show ((rOld, Outcome.err .superseded) :: s.settled).lookup r = none
        have hne : r ≠ rOld := by omega
        rw [lookup_cons_ne _ _ hne]
        exact hInv.settledFresh r hr
      · intro t htm
        exact hInv.timersFresh t (clearMT_liveTimers_subset htm)
      · exact clearMT_liveTimers_nodup hInv.timersNodup

/-- Arming a fresh top-moves request on a state with an empty single
slot and no unsettled request of either kind preserves the invariant. -/
theorem inv_armTop (sE : EState) (n : Nat) (tm : List (Nat × String))
    (hcur : sE.current = none)
    (hNoSingle : ∀ r, sE.kinds.lookup r = some ReqKind.single →
      sE.settled.lookup r = none → False)
    (hNoTop : ∀ r, sE.kinds.lookup r = some ReqKind.top →
      sE.settled.lookup r = none → False)
    (hKF : ∀ r, sE.nextId ≤ r → sE.kinds.lookup r = none)
    (hSF : ∀ r, sE.nextId ≤ r → sE.settled.lookup r = none)
    (hTF : ∀ t, t ∈ sE.liveTimers → t.req < sE.nextId)
    (hND : (sE.liveTimers.map Timer.req).Nodup) :
    Inv { sE with top := some sE.nextId, topMoves := tm, expectedMultipv := n,
                  moveTimeout := some ⟨ReqKind.top, sE.nextId⟩,
                  liveTimers := ⟨ReqKind.top, sE.nextId⟩ :: sE.liveTimers,
                  kinds := (sE.nextId, ReqKind.top) :: sE.kinds,
                  nextId := sE.nextId + 1 } := by
  constructor
  · intro r hk hs
    replace hk : ((sE.nextId, ReqKind.top) :: sE.kinds).lookup r = some ReqKind.single := hk
    replace hs : sE.settled.lookup r = none := hs
    by_cases hrN : r = sE.nextId
    · rw [hrN, lookup_cons_self] at hk
      exact ReqKind.noConfusion (Option.some.inj hk)
    · rw [lookup_cons_ne _ _ hrN] at hk
      exact (hNoSingle r hk hs).elim
  · intro r hk hs
    replace hk : ((sE.nextId, ReqKind.top) :: sE.kinds).lookup r = some ReqKind.top := hk
    replace hs : sE.settled.lookup r = none := hs
    show some sE.nextId = some r
    by_cases hrN : r = sE.nextId
    · rw [hrN]
    · rw [lookup_cons_ne _ _ hrN] at hk
      exact (hNoTop r hk hs).elim
  · intro r hc
    replace hc : sE.current = some r := hc
    rw [hcur] at hc
    exact Option.noConfusion hc
  · intro r ht
    replace ht : some sE.nextId = some r := ht
    obtain rfl := Option.some.inj ht
    refine ⟨lookup_cons_self _ _ _, ?_⟩
    show sE.settled.lookup sE.nextId = none
    exact hSF _ (Nat.le_refl _)
  · intro r hr
    replace hr : sE.nextId + 1 ≤ r := hr
    show ((sE.nextId, ReqKind.top) :: sE.kinds).lookup r = none
    have hrN : r ≠ sE.nextId := by omega
    rw [lookup_cons_ne _ _ hrN]
    exact hKF r (by omega)
  · intro r hr
    replace hr : sE.nextId + 1 ≤ r := hr
    show sE.settled.lookup r = none
    exact hSF r (by omega)
  · intro t htm
    replace htm : t ∈ (⟨ReqKind.top, sE.nextId⟩ : Timer) :: sE.liveTimers := htm
    show t.req < sE.nextId + 1
    rcases List.mem_cons.mp htm with h | h
    · rw [h]
      exact Nat.lt_succ_self _
    · exact Nat.lt_succ_of_lt (hTF t h)
  · intro t hmt
    replace hmt : some (⟨ReqKind.top, sE.nextId⟩ : Timer) = some t := hmt
    obtain rfl := Option.some.inj hmt
    show sE.nextId < sE.nextId + 1
    exact Nat.lt_succ_self _
  · show (((⟨ReqKind.top, sE.nextId⟩ : Timer) :: sE.liveTimers).map Timer.req).Nodup
    rw [List.map_cons]
    refine List.nodup_cons.mpr ⟨?_, hND⟩
    intro hmem
    obtain ⟨t, ht, hteq⟩ := List.mem_map.mp hmem
    replace hteq : t.req = sE.nextId := hteq
    have := hTF t ht
    omega
  · intro r hc
    replace hc : sE.current = some r := hc
    rw [hcur] at hc
    exact Option.noConfusion hc

/-- `getTopMoves` preserves the invariant. -/
theorem inv_stepGetTopMoves {s : EState} (hInv : Inv s) (fen : String) (depth count : Int) :
    Inv (stepGetTopMoves s fen depth count).1 := by
  cases hc : s.current with
  | none =>
      cases ht : s.top with
      | none =>
          have hstep : (stepGetTopMoves s fen depth count).1 =
              { s with top := some s.nextId, topMoves := [],
                       expectedMultipv := clampCount count,
                       moveTimeout := some ⟨ReqKind.top, s.nextId⟩,
                       liveTimers := ⟨ReqKind.top, s.nextId⟩ :: s.liveTimers,
                       kinds := (s.nextId, ReqKind.top) :: s.kinds,
                       nextId := s.nextId + 1 } := by
            simp [stepGetTopMoves, hc, ht]
          rw [hstep]
          exact inv_armTop _ _ _ hc (no_unsettled_single_none hInv hc)
            (no_unsettled_top_none hInv ht) hInv.kindsFresh hInv.settledFresh
            hInv.timersFresh hInv.timersNodup
      | some rT =>
          obtain ⟨hkT, hsT⟩ := hInv.topKind rT ht
          have hsT1 : (clearMT s).settled.lookup rT = none := hsT
          have hstep : (stepGetTopMoves s fen depth count).1 =
              { clearMT s with
                  settled := (rT, Outcome.err .superseded) :: s.settled,
                  top := some s.nextId, topMoves := [],
                  expectedMultipv := clampCount count,
                  moveTimeout := some ⟨ReqKind.top, s.nextId⟩,
                  liveTimers := ⟨ReqKind.top, s.nextId⟩ :: (clearMT s).liveTimers,
                  kinds := (s.nextId, ReqKind.top) :: s.kinds,
                  nextId := s.nextId + 1 } := by
            simp [stepGetTopMoves, hc, ht, settleReq_of_unsettled _ hsT1, clearMT_nextId,
                  clearMT_settled, clearMT_kinds]
          rw [hstep]
          refine inv_armTop ({ clearMT s with
              settled := (rT, Outcome.err .superseded) :: s.settled }) _ _ hc ?_ ?_
              hInv.kindsFresh ?_ ?_ (clearMT_liveTimers_nodup hInv.timersNodup)
          · intro r hk hs
            replace hk : s.kinds.lookup r = some ReqKind.single := hk
            replace hs : ((rT, Outcome.err .superseded) :: s.settled).lookup r = none := hs
            obtain ⟨hne, hs⟩ := lookup_cons_none hs
            have := hInv.singleSlot r hk hs
            rw [hc] at this
            exact Option.noConfusion this
          · intro r hk hs
            exact no_unsettled_top_evict hInv ht _ r hk hs
          · intro r hr
            replace hr : s.nextId ≤ r := hr
            show ((rT, Outcome.err .superseded) :: s.settled).lookup r = none
            have hrT : rT < s.nextId := top_lt_nextId hInv ht
            have hne : r ≠ rT := by omega
            rw [lookup_cons_ne _ _ hne]
            exact hInv.settledFresh r hr
          · intro t htm
            exact hInv.timersFresh t (clearMT_liveTimers_subset htm)
  | some rc =>
      obtain ⟨hkc, hsc⟩ := hInv.currentKind rc hc
      have hsc1 : (clearMT s).settled.lookup rc = none := hsc
      cases ht : s.top with
      | none =>
          have hstep : (stepGetTopMoves s fen depth count).1 =
              { clearMT s with
                  settled := (rc, Outcome.err .superseded) :: s.settled,
                  current := none,
                  top := some s.nextId, topMoves := [],
                  expectedMultipv := clampCount count,
                  moveTimeout := some ⟨ReqKind.top, s.nextId⟩,
                  liveTimers := ⟨ReqKind.top, s.nextId⟩ :: (clearMT s).liveTimers,
                  kinds := (s.nextId, ReqKind.top) :: s.kinds,
                  nextId := s.nextId + 1 } := by
            simp [stepGetTopMoves, hc, ht, settleReq_of_unsettled _ hsc1, clearMT_nextId,
                  clearMT_settled, clearMT_kinds, clearMT_top]
          rw [hstep]
          refine inv_armTop ({ clearMT s with
              settled := (rc, Outcome.err .superseded) :: s.settled,
              current := none }) _ _ rfl ?_ ?_ hInv.kindsFresh ?_ ?_
              (clearMT_liveTimers_nodup hInv.timersNodup)
          · intro r hk hs
            exact no_unsettled_single_evict hInv hc _ r hk hs
          · intro r hk hs
            replace hk : s.kinds.lookup r = some ReqKind.top := hk
            replace hs : ((rc, Outcome.err .superseded) :: s.settled).lookup r = none := hs
            obtain ⟨hne, hs⟩ := lookup_cons_none hs
            have := hInv.topSlot r hk hs
            rw [ht] at this
            exact Option.noConfusion this
          · intro r hr
            replace hr : s.nextId ≤ r := hr
            show ((rc, Outcome.err .superseded) :: s.settled).lookup r = none
            have hrc : rc < s.nextId := current_lt_nextId hInv hc
            have hne : r ≠ rc := by omega
            rw [lookup_cons_ne _ _ hne]
            exact hInv.settledFresh r hr
          · intro t htm
            exact hInv.timersFresh t (clearMT_liveTimers_subset htm)
      | some rT =>
          obtain ⟨hkT, hsT⟩ := hInv.topKind rT ht
          have hrcT : rc ≠ rT := current_ne_top hInv hc ht
          have hlk : ∀ (v : Outcome) (l : List (Nat × Outcome)),
              ((rc, v) :: l).lookup rT = l.lookup rT :=
            fun v l => lookup_cons_ne v l (Ne.symm hrcT)
          have hstep : (stepGetTopMoves s fen depth count).1 =
              { clearMT s with
                  settled := (rT, Outcome.err .superseded) ::
                    (rc, Outcome.err .superseded) :: s.settled,
                  current := none,
                  top := some s.nextId, topMoves := [],
                  expectedMultipv := clampCount count,
                  moveTimeout := some ⟨ReqKind.top, s.nextId⟩,
                  liveTimers := ⟨ReqKind.top, s.nextId⟩ :: (clearMT s).liveTimers,
                  kinds := (s.nextId, ReqKind.top) :: s.kinds,
                  nextId := s.nextId + 1 } := by
            simp [stepGetTopMoves, hc, ht, settleReq_of_unsettled, hsc, hsT, hlk,
                  clearMT_nextId, clearMT_settled, clearMT_kinds, clearMT_top,
                  clearMT_current, clearMT_moveTimeout, clearMT_id_of_mt_none]
          rw [hstep]
          refine inv_armTop ({ clearMT s with
              settled := (rT, Outcome.err .superseded) ::
                (rc, Outcome.err .superseded) :: s.settled,
              current := none }) _ _ rfl ?_ ?_ hInv.kindsFresh ?_ ?_
              (clearMT_liveTimers_nodup hInv.timersNodup)
          · intro r hk hs
            replace hk : s.kinds.lookup r = some ReqKind.single := hk
            replace hs : ((rT, Outcome.err .superseded) ::
              (rc, Outcome.err .superseded) :: s.settled).lookup r = none := hs
            obtain ⟨hneT, hs⟩ := lookup_cons_none hs
            exact no_unsettled_single_evict hInv hc _ r hk hs
          · intro r hk hs
            replace hk : s.kinds.lookup r = some ReqKind.top := hk
            replace hs : ((rT, Outcome.err .superseded) ::
              (rc, Outcome.err .superseded) :: s.settled).lookup r = none := hs
            obtain ⟨hneT, hs⟩ := lookup_cons_none hs
            obtain ⟨hnec, hs⟩ := lookup_cons_none hs
            have := hInv.topSlot r hk hs
            rw [ht] at this
            exact hneT (Option.some.inj this).symm
          · intro r hr
            replace hr : s.nextId ≤ r := hr
            show ((rT, Outcome.err .superseded) ::
              (rc, Outcome.err .superseded) :: s.settled).lookup r = none
            have hrc : rc < s.nextId := current_lt_nextId hInv hc
            have hrT : rT < s.nextId := top_lt_nextId hInv ht
            rw [lookup_cons_ne _ _ (show r ≠ rT by omega),
                lookup_cons_ne _ _ (show r ≠ rc by omega)]
            exact hInv.settledFresh r hr
          · intro t htm
            exact hInv.timersFresh t (clearMT_liveTimers_subset htm)

/-- A state whose request slots are empty and whose created requests are
all settled satisfies the invariant provided the freshness clauses
hold. -/
theorem inv_cleared (sE : EState) (tm0 : List (Nat × String)) (n0 : Nat)
    (hNoSingle : ∀ r, sE.kinds.lookup r = some ReqKind.single →
      sE.settled.lookup r = none → False)
    (hNoTop : ∀ r, sE.kinds.lookup r = some ReqKind.top →
      sE.settled.lookup r = none → False)
    (hKF : ∀ r, sE.nextId ≤ r → sE.kinds.lookup r = none)
    (hSF : ∀ r, sE.nextId ≤ r → sE.settled.lookup r = none)
    (hTF : ∀ t, t ∈ sE.liveTimers → t.req < sE.nextId)
    (hMT : ∀ t, sE.moveTimeout = some t → t.req < sE.nextId)
    (hND : (sE.liveTimers.map Timer.req).Nodup) :
    Inv { sE with current := none, top := none, topMoves := tm0,
                  expectedMultipv := n0 } := by
  constructor
  · intro r hk hs
    exact ((hNoSingle r hk hs).elim : _)
  · intro r hk hs
    exact ((hNoTop r hk hs).elim : _)
  · intro r hc
    replace hc : (none : Option Nat) = some r := hc
    exact Option.noConfusion hc
  · intro r ht
    replace ht : (none : Option Nat) = some r := ht
    exact Option.noConfusion ht
  · intro r hr
    exact hKF r hr
  · intro r hr
    exact hSF r hr
  · intro t htm
    exact hTF t htm
  · intro t hmt
    exact hMT t hmt
  · exact hND
  · intro r hc
    replace hc : (none : Option Nat) = some r := hc
    exact Option.noConfusion hc

/-- `stopCalculation` establishes the invariant from the slot and
freshness properties alone (so it applies also to the states from which
timer callbacks invoke it, where the `currentTimer` clause may not
hold). -/
theorem inv_stopCalc_general {s : EState}
    (hSlotS : ∀ r, s.kinds.lookup r = some ReqKind.single →
      s.settled.lookup r = none → s.current = some r)
    (hSlotT : ∀ r, s.kinds.lookup r = some ReqKind.top →
      s.settled.lookup r = none → s.top = some r)
    (hCK : ∀ r, s.current = some r →
      s.kinds.lookup r = some ReqKind.single ∧ s.settled.lookup r = none)
    (hTK : ∀ r, s.top = some r →
      s.kinds.lookup r = some ReqKind.top ∧ s.settled.lookup r = none)
    (hKF : ∀ r, s.nextId ≤ r → s.kinds.lookup r = none)
    (hSF : ∀ r, s.nextId ≤ r → s.settled.lookup r = none)
    (hTF : ∀ t, t ∈ s.liveTimers → t.req < s.nextId)
    (hND : (s.liveTimers.map Timer.req).Nodup) :
    Inv (stopCalc s).1 := by
  have hKFc : ∀ r k, s.kinds.lookup r = some k → r < s.nextId := by
    intro r k hk
    by_contra hlt
    rw [hKF r (Nat.le_of_not_lt hlt)] at hk
    exact Option.noConfusion hk
  cases hc : s.current with
  | none =>
      cases ht : s.top with
      | none =>
          have hstep : (stopCalc s).1 =
              { clearMT s with current := none, top := none, topMoves := [],
                               expectedMultipv := 0 } := by
            simp [stopCalc, hc, ht, clearMT_current, clearMT_top]
          rw [hstep]
          refine inv_cleared (clearMT s) _ _ ?_ ?_ hKF hSF ?_ ?_
            (clearMT_liveTimers_nodup hND)
          · intro r hk hs
            have := hSlotS r hk hs
            rw [hc] at this
            exact Option.noConfusion this
          · intro r hk hs
            have := hSlotT r hk hs
            rw [ht] at this
            exact Option.noConfusion this
          · intro t htm
            exact hTF t (clearMT_liveTimers_subset htm)
          · intro t hmt
            replace hmt : (none : Option Timer) = some t := hmt
            exact Option.noConfusion hmt
      | some rT =>
          obtain ⟨hkT, hsT⟩ := hTK rT ht
          have hsT1 : (clearMT s).settled.lookup rT = none := hsT
          have hstep : (stopCalc s).1 =
              { clearMT s with
                  settled := (rT, Outcome.err .stopped) :: s.settled,
                  current := none, top := none, topMoves := [],
                  expectedMultipv := 0 } := by
            simp [stopCalc, hc, ht, clearMT_current, clearMT_top,
                  settleReq_of_unsettled _ hsT1, clearMT_settled]
          rw [hstep]
          refine inv_cleared ({ clearMT s with
              settled := (rT, Outcome.err .stopped) :: s.settled }) _ _ ?_ ?_ hKF ?_ ?_ ?_
            (clearMT_liveTimers_nodup hND)
          · intro r hk hs
            replace hs : ((rT, Outcome.err .stopped) :: s.settled).lookup r = none := hs
            obtain ⟨hne, hs⟩ := lookup_cons_none hs
            have := hSlotS r hk hs
            rw [hc] at this
            exact Option.noConfusion this
          · intro r hk hs
            replace hs : ((rT, Outcome.err .stopped) :: s.settled).lookup r = none := hs
            obtain ⟨hne, hs⟩ := lookup_cons_none hs
            have := hSlotT r hk hs
            rw [ht] at this
            exact hne (Option.some.inj this).symm
          · intro r hr
            replace hr : s.nextId ≤ r := hr
            show ((rT, Outcome.err .stopped) :: s.settled).lookup r = none
            have hrT : rT < s.nextId := hKFc rT _ hkT
            rw [lookup_cons_ne _ _ (show r ≠ rT by omega)]
            exact hSF r hr
          · intro t htm
            exact hTF t (clearMT_liveTimers_subset htm)
          · intro t hmt
            replace hmt : (none : Option Timer) = some t := hmt
            exact Option.noConfusion hmt
  | some rc =>
      obtain ⟨hkc, hsc⟩ := hCK rc hc
      have hsc1 : (clearMT s).settled.lookup rc = none := hsc
      cases ht : s.top with
      | none =>
          have hstep : (stopCalc s).1 =
              { clearMT s with
                  settled := (rc, Outcome.err .stopped) :: s.settled,
                  current := none, top := none, topMoves := [],
                  expectedMultipv := 0 } := by
            simp [stopCalc, hc, ht, clearMT_current, clearMT_top,
                  settleReq_of_unsettled _ hsc1, clearMT_settled]
          rw [hstep]
          refine inv_cleared ({ clearMT s with
              settled := (rc, Outcome.err .stopped) :: s.settled }) _ _ ?_ ?_ hKF ?_ ?_ ?_
            (clearMT_liveTimers_nodup hND)
          · intro r hk hs
            replace hs : ((rc, Outcome.err .stopped) :: s.settled).lookup r = none := hs
            obtain ⟨hne, hs⟩ := lookup_cons_none hs
            have := hSlotS r hk hs
            rw [hc] at this
            exact hne (Option.some.inj this).symm
          · intro r hk hs
            replace hs : ((rc, Outcome.err .stopped) :: s.settled).lookup r = none := hs
            obtain ⟨hne, hs⟩ := lookup_cons_none hs
            have := hSlotT r hk hs
            rw [ht] at this
            exact Option.noConfusion this
          · intro r hr
            replace hr : s.nextId ≤ r := hr
            show ((rc, Outcome.err .stopped) :: s.settled).lookup r = none
            have hrc : rc < s.nextId := hKFc rc _ hkc
            rw [lookup_cons_ne _ _ (show r ≠ rc by omega)]
            exact hSF r hr
          · intro t htm
            exact hTF t (clearMT_liveTimers_subset htm)
          · intro t hmt
            replace hmt : (none : Option Timer) = some t := hmt
            exact Option.noConfusion hmt
      | some rT =>
          obtain ⟨hkT, hsT⟩ := hTK rT ht
          have hrcT : rc ≠ rT := by
            intro h
            rw [h, hkT] at hkc
            exact ReqKind.noConfusion (Option.some.inj hkc)
          have hlk : ∀ (v : Outcome) (l : List (Nat × Outcome)),
              ((rc, v) :: l).lookup rT = l.lookup rT :=
            fun v l => lookup_cons_ne v l (Ne.symm hrcT)
          have hstep : (stopCalc s).1 =
              { clearMT s with
                  settled := (rT, Outcome.err .stopped) ::
                    (rc, Outcome.err .stopped) :: s.settled,
                  current := none, top := none, topMoves := [],
                  expectedMultipv := 0 } := by
            simp [stopCalc, hc, ht, clearMT_current, clearMT_top, settleReq_of_unsettled,
                  hsc, hsT, hlk, clearMT_settled, clearMT_moveTimeout,
                  clearMT_id_of_mt_none]
          rw [hstep]
          refine inv_cleared ({ clearMT s with
              settled := (rT, Outcome.err .stopped) ::
                (rc, Outcome.err .stopped) :: s.settled }) _ _ ?_ ?_ hKF ?_ ?_ ?_
            (clearMT_liveTimers_nodup hND)
          · intro r hk hs
            replace hs : ((rT, Outcome.err .stopped) ::
              (rc, Outcome.err .stopped) :: s.settled).lookup r = none := hs
            obtain ⟨hneT, hs⟩ := lookup_cons_none hs
            obtain ⟨hnec, hs⟩ := lookup_cons_none hs
            have := hSlotS r hk hs
            rw [hc] at this
            exact hnec (Option.some.inj this).symm
          · intro r hk hs
            replace hs : ((rT, Outcome.err .stopped) ::
              (rc, Outcome.err .stopped) :: s.settled).lookup r = none := hs
            obtain ⟨hneT, hs⟩ := lookup_cons_none hs
            obtain ⟨hnec, hs⟩ := lookup_cons_none hs
            have := hSlotT r hk hs
            rw [ht] at this
            exact hneT (Option.some.inj this).symm
          · intro r hr
            replace hr : s.nextId ≤ r := hr
            show ((rT, Outcome.err .stopped) ::
              (rc, Outcome.err .stopped) :: s.settled).lookup r = none
            have hrc : rc < s.nextId := hKFc rc _ hkc
            have hrT : rT < s.nextId := hKFc rT _ hkT
            rw [lookup_cons_ne _ _ (show r ≠ rT by omega),
                lookup_cons_ne _ _ (show r ≠ rc by omega)]
            exact hSF r hr
          · intro t htm
            exact hTF t (clearMT_liveTimers_subset htm)
          · intro t hmt
            replace hmt : (none : Option Timer) = some t := hmt
            exact Option.noConfusion hmt

/-- `stopCalculation` as an external call preserves the invariant. -/
theorem inv_stopCalc {s : EState} (hInv : Inv s) : Inv (stopCalc s).1 :=
  inv_stopCalc_general hInv.singleSlot hInv.topSlot hInv.currentKind hInv.topKind
    hInv.kindsFresh hInv.settledFresh hInv.timersFresh hInv.timersNodup

theorem clearMT_liveTimers_of_some {s : EState} {t : Timer}
    (h : s.moveTimeout = some t) :
    (clearMT s).liveTimers = s.liveTimers.erase t := by
  simp [clearMT, h]

theorem clearMT_liveTimers_of_none {s : EState}
    (h : s.moveTimeout = none) :
    (clearMT s).liveTimers = s.liveTimers := by
  simp [clearMT, h]

theorem settleReq_of_settled {s : EState} {r : Nat} {o' : Outcome} (o : Outcome)
    (h : s.settled.lookup r = some o') :
    settleReq s r o = (s, [.ignoredSettle r]) := by
  simp [settleReq, h]

/-- The `info` branch of the message handler preserves the invariant
(it touches only the accumulator). -/
theorem inv_stepInfo {s : EState} (hInv : Inv s) (mpv : Option Nat) (mv : Option String) :
    Inv (stepInfo s mpv mv).1 := by
  cases ht : s.top with
  | none =>
      have hstep : (stepInfo s mpv mv).1 = s := by
        cases mpv <;> cases mv <;> simp [stepInfo, ht]
      rw [hstep]
      exact hInv
  | some rT =>
      cases mpv with
      | none =>
          have hstep : (stepInfo s none mv).1 = s := by
            cases mv <;> simp [stepInfo, ht]
          rw [hstep]
          exact hInv
      | some k =>
          cases mv with
          | none =>
              have hstep : (stepInfo s (some k) none).1 = s := by
                simp [stepInfo, ht]
              rw [hstep]
              exact hInv
          | some m =>
              have hstep : (stepInfo s (some k) (some m)).1 =
                  { s with topMoves := mapSet s.topMoves k m } := by
                simp [stepInfo, ht]
              rw [hstep]
              exact ⟨hInv.singleSlot, hInv.topSlot, hInv.currentKind, hInv.topKind,
                hInv.kindsFresh, hInv.settledFresh, hInv.timersFresh, hInv.mtFresh,
                hInv.timersNodup, hInv.currentTimer⟩

/-- Settling the pending single-move request and clearing its slot and
the stored timeout preserves the invariant. -/
theorem inv_settleCurrent {s : EState} (hInv : Inv s) {rc : Nat}
    (hc : s.current = some rc) (o : Outcome) :
    Inv { clearMT s with settled := (rc, o) :: s.settled, current := none } := by
  obtain ⟨hkc, hsc⟩ := hInv.currentKind rc hc
  have hrc : rc < s.nextId := current_lt_nextId hInv hc
  constructor
  · intro r hk hs
    replace hk : s.kinds.lookup r = some ReqKind.single := hk
    replace hs : ((rc, o) :: s.settled).lookup r = none := hs
    exact (no_unsettled_single_evict hInv hc o r hk hs).elim
  · intro r hk hs
    replace hk : s.kinds.lookup r = some ReqKind.top := hk
    replace hs : ((rc, o) :: s.settled).lookup r = none := hs
    obtain ⟨hne, hs⟩ := lookup_cons_none hs
    show s.top = some r
    exact hInv.topSlot r hk hs
  · intro r hcc
    replace hcc : (none : Option Nat) = some r := hcc
    exact Option.noConfusion hcc
  · intro r ht
    replace ht : s.top = some r := ht
    obtain ⟨hk, hs⟩ := hInv.topKind r ht
    refine ⟨hk, ?_⟩
    show ((rc, o) :: s.settled).lookup r = none
    have hne : r ≠ rc := (current_ne_top hInv hc ht).symm
    rw [lookup_cons_ne _ _ hne]
    exact hs
  · intro r hr
    exact hInv.kindsFresh r hr
  · intro r hr
    replace hr : s.nextId ≤ r := hr
    show ((rc, o) :: s.settled).lookup r = none
    rw [lookup_cons_ne _ _ (show r ≠ rc by omega)]
    exact hInv.settledFresh r hr
  · intro t htm
    exact hInv.timersFresh t (clearMT_liveTimers_subset htm)
  · intro t hmt
    replace hmt : (none : Option Timer) = some t := hmt
    exact Option.noConfusion hmt
  · exact clearMT_liveTimers_nodup hInv.timersNodup
  · intro r hcc
    replace hcc : (none : Option Nat) = some r := hcc
    exact Option.noConfusion hcc

/-- The single-move part of the `bestmove` handler preserves the
invariant. -/
theorem inv_stepBestmoveSingle {s : EState} (hInv : Inv s) (mv : Option String) :
    Inv (stepBestmoveSingle s mv).1 := by
  cases hc : s.current with
  | none =>
      have hstep : (stepBestmoveSingle s mv).1 = s := by
        cases mv with
        | none => simp [stepBestmoveSingle, hc]
        | some m => simp [stepBestmoveSingle, hc]
      rw [hstep]
      exact hInv
  | some rc =>
      obtain ⟨hkc, hsc⟩ := hInv.currentKind rc hc
      have hsc1 : (clearMT s).settled.lookup rc = none := hsc
      cases mv with
      | none =>
          have hstep : (stepBestmoveSingle s none).1 =
              { clearMT s with settled := (rc, Outcome.err .noValidMove) :: s.settled,
                               current := none } := by
            simp [stepBestmoveSingle, hc, settleReq_of_unsettled _ hsc1, clearMT_settled]
          rw [hstep]
          exact inv_settleCurrent hInv hc _
      | some m =>
          by_cases hm : m = "(none)"
          · have hstep : (stepBestmoveSingle s (some m)).1 =
                { clearMT s with settled := (rc, Outcome.err .noValidMove) :: s.settled,
                                 current := none } := by
              simp [stepBestmoveSingle, hc, hm, settleReq_of_unsettled _ hsc1,
                    clearMT_settled]
            rw [hstep]
            exact inv_settleCurrent hInv hc _
          · have hstep : (stepBestmoveSingle s (some m)).1 =
                { clearMT s with settled := (rc, Outcome.move m) :: s.settled,
                                 current := none } := by
              simp [stepBestmoveSingle, hc, hm, settleReq_of_unsettled _ hsc1,
                    clearMT_settled]
            rw [hstep]
            exact inv_settleCurrent hInv hc _

/-- Settling the pending top-moves request and clearing its slot, the
accumulator and the stored timeout preserves the invariant. -/
theorem inv_settleTop {s : EState} (hInv : Inv s) {rT : Nat}
    (ht : s.top = some rT) (o : Outcome) :
    Inv { clearMT s with settled := (rT, o) :: s.settled, top := none,
                         topMoves := [], expectedMultipv := 0 } := by
  obtain ⟨hkT, hsT⟩ := hInv.topKind rT ht
  have hrT : rT < s.nextId := top_lt_nextId hInv ht
  constructor
  · intro r hk hs
    replace hk : s.kinds.lookup r = some ReqKind.single := hk
    replace hs : ((rT, o) :: s.settled).lookup r = none := hs
    obtain ⟨hne, hs⟩ := lookup_cons_none hs
    show s.current = some r
    exact hInv.singleSlot r hk hs
  · intro r hk hs
    replace hk : s.kinds.lookup r = some ReqKind.top := hk
    replace hs : ((rT, o) :: s.settled).lookup r = none := hs
    exact (no_unsettled_top_evict hInv ht o r hk hs).elim
  · intro r hcc
    replace hcc : s.current = some r := hcc
    obtain ⟨hk, hs⟩ := hInv.currentKind r hcc
    refine ⟨hk, ?_⟩
    show ((rT, o) :: s.settled).lookup r = none
    have hne : r ≠ rT := current_ne_top hInv hcc ht
    rw [lookup_cons_ne _ _ hne]
    exact hs
  · intro r htt
    replace htt : (none : Option Nat) = some r := htt
    exact Option.noConfusion htt
  · intro r hr
    exact hInv.kindsFresh r hr
  · intro r hr
    replace hr : s.nextId ≤ r := hr
    show ((rT, o) :: s.settled).lookup r = none
    rw [lookup_cons_ne _ _ (show r ≠ rT by omega)]
    exact hInv.settledFresh r hr
  · intro t htm
    exact hInv.timersFresh t (clearMT_liveTimers_subset htm)
  · intro t hmt
    replace hmt : (none : Option Timer) = some t := hmt
    exact Option.noConfusion hmt
  · exact clearMT_liveTimers_nodup hInv.timersNodup
  · intro r hcc
    replace hcc : s.current = some r := hcc
    right
    refine ⟨rfl, ?_⟩
    show (⟨ReqKind.single, r⟩ : Timer) ∉ (clearMT s).liveTimers
    rcases hInv.currentTimer r hcc with ⟨hmt, hmem⟩ | ⟨hmt, hmem⟩
    · rw [clearMT_liveTimers_of_some hmt]
      intro hin
      have hnd : s.liveTimers.Nodup := hInv.timersNodup.of_map _
      exact absurd ((List.Nodup.mem_erase_iff hnd).mp hin).1 (by simp)
    · rw [clearMT_liveTimers_of_none hmt]
      exact hmem

/-- The `bestmove` handler preserves the invariant. -/
theorem inv_stepBestmove {s : EState} (hInv : Inv s) (mv : Option String) :
    Inv (stepBestmove s mv).1 := by
  cases ht : s.top with
  | none =>
      have hstep : (stepBestmove s mv).1 = (stepBestmoveSingle s mv).1 := by
        simp [stepBestmove, ht]
      rw [hstep]
      exact inv_stepBestmoveSingle hInv mv
  | some rT =>
      by_cases hexp : 0 < s.expectedMultipv
      · obtain ⟨hkT, hsT⟩ := hInv.topKind rT ht
        have hsT1 : (clearMT s).settled.lookup rT = none := hsT
        by_cases harr : (collectMoves s.expectedMultipv s.topMoves).isEmpty
        · have hstep : (stepBestmove s mv).1 =
              { clearMT s with
                  settled := (rT, Outcome.err .noCandidates) :: s.settled,
                  top := none, topMoves := [], expectedMultipv := 0 } := by
            simp [stepBestmove, ht, hexp, harr, settleReq_of_unsettled _ hsT1,
                  clearMT_settled]
          rw [hstep]
          exact inv_settleTop hInv ht _
        · have hstep : (stepBestmove s mv).1 =
              { clearMT s with
                  settled := (rT, Outcome.moves
                    (collectMoves s.expectedMultipv s.topMoves)) :: s.settled,
                  top := none, topMoves := [], expectedMultipv := 0 } := by
            simp [stepBestmove, ht, hexp, harr, settleReq_of_unsettled _ hsT1,
                  clearMT_settled]
          rw [hstep]
          exact inv_settleTop hInv ht _
      · have hstep : (stepBestmove s mv).1 = (stepBestmoveSingle s mv).1 := by
          simp [stepBestmove, ht, hexp]
        rw [hstep]
        exact inv_stepBestmoveSingle hInv mv

/-- The `error` message handler preserves the invariant. -/
theorem inv_stepError {s : EState} (hInv : Inv s) (text : String) :
    Inv (stepError s text).1 := by
  cases hc : s.current with
  | none =>
      cases ht : s.top with
      | none =>
          have hstep : (stepError s text).1 = s := by
            simp [stepError, hc, ht]
          rw [hstep]
          exact hInv
      | some rT =>
          obtain ⟨hkT, hsT⟩ := hInv.topKind rT ht
          have hsT1 : (clearMT s).settled.lookup rT = none := hsT
          have hstep : (stepError s text).1 =
              { clearMT s with
                  settled := (rT, Outcome.err (.engineErrorMsg text)) :: s.settled,
                  top := none, topMoves := [], expectedMultipv := 0 } := by
            simp [stepError, hc, ht, settleReq_of_unsettled _ hsT1, clearMT_settled,
                  clearMT_top]
          rw [hstep]
          exact inv_settleTop hInv ht _
  | some rc =>
      obtain ⟨hkc, hsc⟩ := hInv.currentKind rc hc
      have hsc1 : (clearMT s).settled.lookup rc = none := hsc
      cases ht : s.top with
      | none =>
          have hstep : (stepError s text).1 =
              { clearMT s with
                  settled := (rc, Outcome.err (.engineErrorMsg text)) :: s.settled,
                  current := none } := by
            simp [stepError, hc, ht, settleReq_of_unsettled _ hsc1, clearMT_settled,
                  clearMT_top]
          rw [hstep]
          exact inv_settleCurrent hInv hc _
      | some rT =>
          obtain ⟨hkT, hsT⟩ := hInv.topKind rT ht
          have hrcT : rc ≠ rT := current_ne_top hInv hc ht
          have hlk : ∀ (v : Outcome) (l : List (Nat × Outcome)),
              ((rc, v) :: l).lookup rT = l.lookup rT :=
            fun v l => lookup_cons_ne v l (Ne.symm hrcT)
          have hstep : (stepError s text).1 =
              { clearMT s with
                  settled := (rT, Outcome.err (.engineErrorMsg text)) ::
                    (rc, Outcome.err (.engineErrorMsg text)) :: s.settled,
                  current := none, top := none, topMoves := [],
                  expectedMultipv := 0 } := by
            simp [stepError, hc, ht, settleReq_of_unsettled, hsc, hsT, hlk,
                  clearMT_settled, clearMT_top, clearMT_current,
                  clearMT_moveTimeout, clearMT_id_of_mt_none]
          rw [hstep]
          refine inv_cleared ({ clearMT s with
              settled := (rT, Outcome.err (.engineErrorMsg text)) ::
                (rc, Outcome.err (.engineErrorMsg text)) :: s.settled,
              current := none }) _ _ ?_ ?_ hInv.kindsFresh ?_ ?_ ?_
            (clearMT_liveTimers_nodup hInv.timersNodup)
          · intro r hk hs
            replace hk : s.kinds.lookup r = some ReqKind.single := hk
            replace hs : ((rT, Outcome.err (.engineErrorMsg text)) ::
              (rc, Outcome.err (.engineErrorMsg text)) :: s.settled).lookup r = none := hs
            obtain ⟨hneT, hs⟩ := lookup_cons_none hs
            exact no_unsettled_single_evict hInv hc _ r hk hs
          · intro r hk hs
            replace hk : s.kinds.lookup r = some ReqKind.top := hk
            replace hs : ((rT, Outcome.err (.engineErrorMsg text)) ::
              (rc, Outcome.err (.engineErrorMsg text)) :: s.settled).lookup r = none := hs
            obtain ⟨hneT, hs⟩ := lookup_cons_none hs
            obtain ⟨hnec, hs⟩ := lookup_cons_none hs
            have := hInv.topSlot r hk hs
            rw [ht] at this
            exact hneT (Option.some.inj this).symm
          · intro r hr
            replace hr : s.nextId ≤ r := hr
            show ((rT, Outcome.err (.engineErrorMsg text)) ::
              (rc, Outcome.err (.engineErrorMsg text)) :: s.settled).lookup r = none
            have h1 : rc < s.nextId := current_lt_nextId hInv hc
            have h2 : rT < s.nextId := top_lt_nextId hInv ht
            rw [lookup_cons_ne _ _ (show r ≠ rT by omega),
                lookup_cons_ne _ _ (show r ≠ rc by omega)]
            exact hInv.settledFresh r hr
          · intro t htm
            exact hInv.timersFresh t (clearMT_liveTimers_subset htm)
          · intro t hmt
            replace hmt : (none : Option Timer) = some t := hmt
            exact Option.noConfusion hmt

/-- Erasing a timer that is not the pending single-move request's own
timer preserves the invariant. -/
theorem inv_eraseTimer {s : EState} (hInv : Inv s) {t : Timer}
    (hne : ∀ r, s.current = some r → t ≠ ⟨ReqKind.single, r⟩) :
    Inv { s with liveTimers := s.liveTimers.erase t } := by
  constructor
  · exact hInv.singleSlot
  · exact hInv.topSlot
  · exact hInv.currentKind
  · exact hInv.topKind
  · exact hInv.kindsFresh
  · exact hInv.settledFresh
  · intro t' htm
    replace htm : t' ∈ s.liveTimers.erase t := htm
    exact hInv.timersFresh t' (List.mem_of_mem_erase htm)
  · exact hInv.mtFresh
  · show ((s.liveTimers.erase t).map Timer.req).Nodup
    exact hInv.timersNodup.sublist (List.Sublist.map _ (List.erase_sublist _ _))
  · intro r hc
    replace hc : s.current = some r := hc
    rcases hInv.currentTimer r hc with ⟨hmt, hmem⟩ | ⟨hmt, hmem⟩
    · left
      refine ⟨hmt, ?_⟩
      show (⟨ReqKind.single, r⟩ : Timer) ∈ s.liveTimers.erase t
      exact (List.mem_erase_of_ne (hne r hc).symm).2 hmem
    · right
      refine ⟨hmt, ?_⟩
      show (⟨ReqKind.single, r⟩ : Timer) ∉ s.liveTimers.erase t
      intro hin
      exact hmem (List.mem_of_mem_erase hin)

/-- After `stopCalculation`, the request that occupied the top slot is
settled. -/
theorem stopCalc_settled_lookup_top {s : EState} {rT : Nat} (ht : s.top = some rT) :
    (((stopCalc s).1.settled.lookup rT)).isSome = true := by
  have ht2 : (clearMT s).top = some rT := ht
  cases hcc : (clearMT s).current with
  | none =>
      simp only [stopCalc, hcc, ht2]
      exact settleReq_lookup_self _ _ _
  | some rc =>
      cases hl : (clearMT s).settled.lookup rc with
      | none =>
          simp only [stopCalc, hcc, settleReq_of_unsettled _ hl, ht2]
          exact settleReq_lookup_self _ _ _
      | some o' =>
          simp only [stopCalc, hcc, settleReq_of_settled _ hl, ht2]
          exact settleReq_lookup_self _ _ _

/-- Timer expiry preserves the invariant. -/
theorem inv_stepFire {s : EState} (hInv : Inv s) (t : Timer) :
    Inv (stepFire s t).1 := by
  by_cases hlive : t ∈ s.liveTimers
  · have hf7 : ∀ t', t' ∈ ({ s with liveTimers := s.liveTimers.erase t } : EState).liveTimers →
        t'.req < ({ s with liveTimers := s.liveTimers.erase t } : EState).nextId := by
      intro t' htm
      replace htm : t' ∈ s.liveTimers.erase t := htm
      show t'.req < s.nextId
      exact hInv.timersFresh t' (List.mem_of_mem_erase htm)
    have hf8 : (({ s with liveTimers := s.liveTimers.erase t } : EState).liveTimers.map
        Timer.req).Nodup := by
      show ((s.liveTimers.erase t).map Timer.req).Nodup
      exact hInv.timersNodup.sublist (List.Sublist.map _ (List.erase_sublist _ _))
    cases hkind : t.kind with
    | single =>
        by_cases hguard : s.current = some t.req
        · have hstep : (stepFire s t).1 =
              (stopCalc { s with liveTimers := s.liveTimers.erase t }).1 := by
            simp [stepFire, hlive, hkind, hguard]
          rw [hstep]
          exact inv_stopCalc_general hInv.singleSlot hInv.topSlot hInv.currentKind
            hInv.topKind hInv.kindsFresh hInv.settledFresh hf7 hf8
        · have hstep : (stepFire s t).1 =
              { s with liveTimers := s.liveTimers.erase t } := by
            simp [stepFire, hlive, hkind, hguard]
          rw [hstep]
          refine inv_eraseTimer hInv ?_
          intro r hc he
          apply hguard
          rw [he]
          exact hc
    | top =>
        by_cases hguard : s.top = some t.req
        · have hInvStop : Inv (stopCalc { s with
              liveTimers := s.liveTimers.erase t }).1 :=
            inv_stopCalc_general hInv.singleSlot hInv.topSlot hInv.currentKind
              hInv.topKind hInv.kindsFresh hInv.settledFresh hf7 hf8
          have hset : (((stopCalc { s with
              liveTimers := s.liveTimers.erase t }).1.settled.lookup t.req)).isSome = true :=
            stopCalc_settled_lookup_top hguard
          obtain ⟨o2, ho2⟩ := Option.isSome_iff_exists.mp hset
          rw [hguard] at ho2
          have hstep : (stepFire s t).1 =
              (stopCalc { s with liveTimers := s.liveTimers.erase t }).1 := by
            simp [stepFire, hlive, hkind, hguard, settleReq_of_settled _ ho2]
          rw [hstep]
          exact hInvStop
        · have hstep : (stepFire s t).1 =
              { s with liveTimers := s.liveTimers.erase t } := by
            simp [stepFire, hlive, hkind, hguard]
          rw [hstep]
          refine inv_eraseTimer hInv ?_
          intro r hc he
          rw [he] at hkind
          exact ReqKind.noConfusion hkind
  · have hstep : (stepFire s t).1 = s := by
      simp [stepFire, hlive]
    rw [hstep]
    exact hInv

/-- Every step of the session preserves the invariant. -/
theorem inv_stepCmd {s : EState} (hInv : Inv s) (c : Cmd) : Inv (stepCmd s c).1 := by
  cases c with
  | getBestMove fen depth => exact inv_stepGetBestMove hInv fen depth
  | getTopMoves fen depth count => exact inv_stepGetTopMoves hInv fen depth count
  | stop => exact inv_stopCalc hInv
  | msgInfo mpv mv => exact inv_stepInfo hInv mpv mv
  | msgBestmove mv => exact inv_stepBestmove hInv mv
  | msgError text => exact inv_stepError hInv text
  | fire t => exact inv_stepFire hInv t

/-- The invariant holds in every reachable state. -/
theorem inv_reachable {s : EState} (h : Reachable s) : Inv s := by
  induction h with
  | init => exact inv_init
  | next h c ih => exact inv_stepCmd ih c

/-! ### Claim theorems for the session -/

theorem settleReq_no_post {s : EState} {r : Nat} {o : Outcome} (m : String) :
    Event.post m ∉ (settleReq s r o).2 := by
  cases h : s.settled.lookup r <;> simp [settleReq, h]

/-- `stopCalculation` never posts the multipv reset (or any `setoption`):
its only post is `stop`. -/
theorem stopCalc_no_reset (s : EState) :
    Event.post "setoption name multipv value 1" ∉ (stopCalc s).2 := by
  have hstop : ("setoption name multipv value 1" : String) ≠ "stop" := by decide
  cases hcc : (clearMT s).current with
  | none =>
      cases htt : (clearMT s).top with
      | none =>
          simp only [stopCalc, hcc, htt]
          simp [hstop]
      | some rT =>
          simp only [stopCalc, hcc, htt]
          simp [hstop, settleReq_no_post]
  | some rc =>
      cases hl : (clearMT s).settled.lookup rc with
      | none =>
          rw [show (stopCalc s).2 = [Event.post "stop"] ++ (settleReq (clearMT s) rc
            (.err .stopped)).2 ++ (match ((settleReq (clearMT s) rc (.err .stopped)).1.top)
              with
            | some r => settleReq (settleReq (clearMT s) rc (.err .stopped)).1 r
                (.err .stopped)
            | none => ((settleReq (clearMT s) rc (.err .stopped)).1, [])).2 from by
            simp only [stopCalc, hcc]]
          cases htt : (settleReq (clearMT s) rc (.err .stopped)).1.top with
          | none => simp [htt, hstop, settleReq_no_post]
          | some rT => simp [htt, hstop, settleReq_no_post]
      | some o' =>
          rw [show (stopCalc s).2 = [Event.post "stop"] ++ (settleReq (clearMT s) rc
            (.err .stopped)).2 ++ (match ((settleReq (clearMT s) rc (.err .stopped)).1.top)
              with
            | some r => settleReq (settleReq (clearMT s) rc (.err .stopped)).1 r
                (.err .stopped)
            | none => ((settleReq (clearMT s) rc (.err .stopped)).1, [])).2 from by
            simp only [stopCalc, hcc]]
          cases htt : (settleReq (clearMT s) rc (.err .stopped)).1.top with
          | none => simp [htt, hstop, settleReq_no_post]
          | some rT => simp [htt, hstop, settleReq_no_post]

/-- Claim C1: on any reachable session state with an outstanding
single-best-move request `r`, calling `getBestMove` again (i) rejects
`r`'s promise with the supersession error `New move requested` before
the `position`/`go` commands are posted to the engine (the step's whole
event trace is exactly the rejection followed by the two posts), (ii)
leaves `r` settled with that error, so `r` can never resolve or reject
again, (iii) leaves no live timer for `r`, (iv) installs the fresh
request `s.nextId ≠ r` as the only occupant of the single-move slot
with its promise unsettled; and on every reachable state at most one
single-best-move request is outstanding (created and unsettled), since
every unsettled single-move request occupies the one-place `current`
slot. -/
theorem getBestMove_single_flight :
    (∀ (s : EState) (fen : String) (depth : Int) (r : Nat),
      Reachable s → s.current = some r →
      (stepCmd s (.getBestMove fen depth)).2 =
        [.settle r (.err .superseded), .post ("position fen " ++ fen),
         .post ("go depth " ++ toString depth)]
      ∧ (stepCmd s (.getBestMove fen depth)).1.settled.lookup r =
          some (.err .superseded)
      ∧ (⟨ReqKind.single, r⟩ : Timer) ∉ (stepCmd s (.getBestMove fen depth)).1.liveTimers
      ∧ (stepCmd s (.getBestMove fen depth)).1.current = some s.nextId
      ∧ r ≠ s.nextId
      ∧ (stepCmd s (.getBestMove fen depth)).1.settled.lookup s.nextId = none)
    ∧ (∀ (s : EState), Reachable s → ∀ r r',
        s.kinds.lookup r = some ReqKind.single → s.settled.lookup r = none →
        s.kinds.lookup r' = some ReqKind.single → s.settled.lookup r' = none →
        r = r') := by
  constructor
  · intro s fen depth r hreach hc
    have hInv := inv_reachable hreach
    obtain ⟨hkOld, hsOld⟩ := hInv.currentKind r hc
    have hrlt : r < s.nextId := current_lt_nextId hInv hc
    have hs1 : (clearMT s).settled.lookup r = none := hsOld
    have hstep : stepCmd s (.getBestMove fen depth) =
        ({ clearMT s with
            settled := (r, Outcome.err .superseded) :: s.settled,
            current := some s.nextId,
            moveTimeout := some ⟨ReqKind.single, s.nextId⟩,
            liveTimers := ⟨ReqKind.single, s.nextId⟩ :: (clearMT s).liveTimers,
            kinds := (s.nextId, ReqKind.single) :: s.kinds,
            nextId := s.nextId + 1 },
         [.settle r (.err .superseded), .post ("position fen " ++ fen),
          .post ("go depth " ++ toString depth)]) := by
      simp [stepCmd, stepGetBestMove, hc, settleReq_of_unsettled _ hs1, clearMT_nextId,
            clearMT_settled, clearMT_kinds]
    rw [hstep]
    refine ⟨rfl, ?_, ?_, rfl, by omega, ?_⟩
    · show ((r, Outcome.err .superseded) :: s.settled).lookup r = some (.err .superseded)
      exact lookup_cons_self _ _ _
    · show (⟨ReqKind.single, r⟩ : Timer) ∉
        (⟨ReqKind.single, s.nextId⟩ : Timer) :: (clearMT s).liveTimers
      intro hmem
      rcases List.mem_cons.mp hmem with h | h
      · have : r = s.nextId := congrArg Timer.req h
        omega
      · rcases hInv.currentTimer r hc with ⟨hmt, hmem2⟩ | ⟨hmt, hmem2⟩
        · rw [clearMT_liveTimers_of_some hmt] at h
          have hnd : s.liveTimers.Nodup := hInv.timersNodup.of_map _
          exact absurd ((List.Nodup.mem_erase_iff hnd).mp h).1 (by simp)
        · rw [clearMT_liveTimers_of_none hmt] at h
          exact hmem2 h
    · show ((r, Outcome.err .superseded) :: s.settled).lookup s.nextId = none
      rw [lookup_cons_ne _ _ (show s.nextId ≠ r by omega)]
      exact hInv.settledFresh _ (Nat.le_refl _)
  · intro s hreach r r' hk hs hk' hs'
    have hInv := inv_reachable hreach
    have h1 := hInv.singleSlot r hk hs
    have h2 := hInv.singleSlot r' hk' hs'
    rw [h1] at h2
    exact Option.some.inj h2

/-- Closed instance of C1: in the session `initEngine; getBestMove;
getBestMove`, the first request (id 0) is rejected as superseded before
the second `position`/`go` pair is posted, its timer is gone, and the
second request (id 1) occupies the slot unsettled. -/
theorem getBestMove_single_flight_witness :
    ((stepCmd (stepCmd initState (.getBestMove "rnbq" 10)).1
        (.getBestMove "rnbq" 12)).2 =
      [.settle 0 (.err .superseded), .post ("position fen " ++ "rnbq"),
       .post ("go depth " ++ toString (12 : Int))])
    ∧ ((stepCmd (stepCmd initState (.getBestMove "rnbq" 10)).1
        (.getBestMove "rnbq" 12)).1.settled.lookup 0 = some (.err .superseded))
    ∧ (⟨ReqKind.single, 0⟩ : Timer) ∉
        (stepCmd (stepCmd initState (.getBestMove "rnbq" 10)).1
          (.getBestMove "rnbq" 12)).1.liveTimers := by
  have h := getBestMove_single_flight.1 (stepCmd initState (.getBestMove "rnbq" 10)).1
    "rnbq" 12 0 (Reachable.next Reachable.init (Cmd.getBestMove "rnbq" 10)) (by decide)
  exact ⟨h.1, h.2.1, h.2.2.1⟩

/-- Claim C9: on any reachable state where a single-best-move request
`r` is outstanding and no top-moves request is pending, `getTopMoves`
also rejects `r`'s promise with the supersession error (and leaves its
timer dead) before posting the new `position`/`setoption`/`go`
commands: supersession is not limited to requests of the top-moves
kind. -/
theorem getTopMoves_supersedes_single :
    ∀ (s : EState) (fen : String) (depth count : Int) (r : Nat),
      Reachable s → s.current = some r → s.top = none →
      (stepCmd s (.getTopMoves fen depth count)).2 =
        [.settle r (.err .superseded), .post ("position fen " ++ fen),
         .post ("setoption name multipv value " ++ toString (clampCount count)),
         .post ("go depth " ++ toString depth)]
      ∧ (stepCmd s (.getTopMoves fen depth count)).1.settled.lookup r =
          some (.err .superseded)
      ∧ (⟨ReqKind.single, r⟩ : Timer) ∉
          (stepCmd s (.getTopMoves fen depth count)).1.liveTimers
      ∧ (stepCmd s (.getTopMoves fen depth count)).1.current = none
      ∧ (stepCmd s (.getTopMoves fen depth count)).1.top = some s.nextId := by
  intro s fen depth count r hreach hc ht
  have hInv := inv_reachable hreach
  obtain ⟨hkOld, hsOld⟩ := hInv.currentKind r hc
  have hrlt : r < s.nextId := current_lt_nextId hInv hc
  have hs1 : (clearMT s).settled.lookup r = none := hsOld
  have hstep : stepCmd s (.getTopMoves fen depth count) =
      ({ clearMT s with
          settled := (r, Outcome.err .superseded) :: s.settled,
          current := none,
          top := some s.nextId, topMoves := [],
          expectedMultipv := clampCount count,
          moveTimeout := some ⟨ReqKind.top, s.nextId⟩,
          liveTimers := ⟨ReqKind.top, s.nextId⟩ :: (clearMT s).liveTimers,
          kinds := (s.nextId, ReqKind.top) :: s.kinds,
          nextId := s.nextId + 1 },
       [.settle r (.err .superseded), .post ("position fen " ++ fen),
        .post ("setoption name multipv value " ++ toString (clampCount count)),
        .post ("go depth " ++ toString depth)]) := by
    simp [stepCmd, stepGetTopMoves, hc, ht, settleReq_of_unsettled _ hs1, clearMT_nextId,
          clearMT_settled, clearMT_kinds, clearMT_top]
  rw [hstep]
  refine ⟨rfl, ?_, ?_, rfl, rfl⟩
  · show ((r, Outcome.err .superseded) :: s.settled).lookup r = some (.err .superseded)
    exact lookup_cons_self _ _ _
  · show (⟨ReqKind.single, r⟩ : Timer) ∉
      (⟨ReqKind.top, s.nextId⟩ : Timer) :: (clearMT s).liveTimers
    intro hmem
    rcases List.mem_cons.mp hmem with h | h
    · have : ReqKind.single = ReqKind.top := congrArg Timer.kind h
      exact ReqKind.noConfusion this
    · rcases hInv.currentTimer r hc with ⟨hmt, hmem2⟩ | ⟨hmt, hmem2⟩
      · rw [clearMT_liveTimers_of_some hmt] at h
        have hnd : s.liveTimers.Nodup := hInv.timersNodup.of_map _
        exact absurd ((List.Nodup.mem_erase_iff hnd).mp h).1 (by simp)
      · rw [clearMT_liveTimers_of_none hmt] at h
        exact hmem2 h

/-- Closed instance of C9: in `initEngine; getBestMove; getTopMoves`,
the pending single-best-move request (id 0) is rejected as superseded
and its timer is gone before the multipv search is dispatched. -/
theorem getTopMoves_supersedes_single_witness :
    ((stepCmd (stepCmd initState (.getBestMove "rnbq" 10)).1
        (.getTopMoves "rnbq" 12 3)).2 =
      [.settle 0 (.err .superseded), .post ("position fen " ++ "rnbq"),
       .post ("setoption name multipv value " ++ toString (clampCount 3)),
       .post ("go depth " ++ toString (12 : Int))])
    ∧ ((stepCmd (stepCmd initState (.getBestMove "rnbq" 10)).1
        (.getTopMoves "rnbq" 12 3)).1.settled.lookup 0 = some (.err .superseded)) := by
  have h := getTopMoves_supersedes_single (stepCmd initState (.getBestMove "rnbq" 10)).1
    "rnbq" 12 3 0 (Reachable.next Reachable.init (Cmd.getBestMove "rnbq" 10))
    (by decide) (by decide)
  exact ⟨h.1, h.2.1⟩

/-- Claim C3 (code evaluated at the failing input): when a
single-best-move request's 30-second timer fires with no `bestmove`
received, the callback's guard passes and it calls `stopCalculation()`,
which rejects the promise with `Calculation stopped` — not the
`Move calculation timeout` error — and nulls `currentReject`; the
callback then invokes the now-null `currentReject`, raising an uncaught
`TypeError` (the `tsThrow` event).  A `bestmove` arriving after the
timeout has no observable effect (empty event trace, unchanged state).
On the top-moves path the timer callback's saved rejecter delivers its
timeout error onto an already-settled promise, so that rejection is
ignored and the promise again carries the `Calculation stopped`
error. -/
theorem timeout_rejects_with_stopped_and_throws :
    ((stepCmd (stepCmd initState (.getBestMove "rnbq" 10)).1
        (.fire ⟨ReqKind.single, 0⟩)).2 =
      [.post "stop", .settle 0 (.err .stopped), .tsThrow])
    ∧ ((stepCmd (stepCmd initState (.getBestMove "rnbq" 10)).1
        (.fire ⟨ReqKind.single, 0⟩)).1.settled.lookup 0 = some (.err .stopped))
    ∧ ((stepCmd (stepCmd (stepCmd initState (.getBestMove "rnbq" 10)).1
        (.fire ⟨ReqKind.single, 0⟩)).1 (.msgBestmove (some "e2e4"))).2 = [])
    ∧ ((stepCmd (stepCmd (stepCmd initState (.getBestMove "rnbq" 10)).1
        (.fire ⟨ReqKind.single, 0⟩)).1 (.msgBestmove (some "e2e4"))).1 =
      (stepCmd (stepCmd initState (.getBestMove "rnbq" 10)).1
        (.fire ⟨ReqKind.single, 0⟩)).1)
    ∧ ((stepCmd (stepCmd initState (.getTopMoves "rnbq" 10 3)).1
        (.fire ⟨ReqKind.top, 0⟩)).2 =
      [.post "stop", .settle 0 (.err .stopped),
       .post "setoption name multipv value 1", .ignoredSettle 0])
    ∧ ((stepCmd (stepCmd initState (.getTopMoves "rnbq" 10 3)).1
        (.fire ⟨ReqKind.top, 0⟩)).1.settled.lookup 0 = some (.err .stopped)) := by
  refine ⟨?_, ?_, ?_, ?_, ?_, ?_⟩ <;> decide

/-- Claim C4 (counterexample): the claim requires the multipv reset on
*every* completion path of `getTopMoves`, including explicit
`stopCalculation` cancellation and engine failure; but `stopCalculation`
completes the pending top-moves request (rejecting it with
`Calculation stopped`) while posting only `stop` — no
`setoption name multipv value 1` is ever sent on that path. -/
theorem stopCalculation_skips_multipv_reset :
    ((stepCmd (stepCmd initState (.getTopMoves "rnbq" 10 3)).1 .stop).2 =
      [.post "stop", .settle 0 (.err .stopped)])
    ∧ Event.post "setoption name multipv value 1" ∉
        (stepCmd (stepCmd initState (.getTopMoves "rnbq" 10 3)).1 .stop).2
    ∧ ((stepCmd (stepCmd initState (.getTopMoves "rnbq" 10 3)).1 .stop).1.settled.lookup 0
        = some (.err .stopped)) := by
  refine ⟨?_, ?_, ?_⟩ <;> decide

/-- Claim C4 (amended): with a top-moves request pending, the engine's
multipv option is reset to 1 during cleanup on the successful, the
empty-result, and the timeout completion paths — the `bestmove` handler
posts the reset on both of its branches, and the timer callback posts
it after `stopCalculation` — but not on the explicit `stopCalculation`
path nor on the engine `error`-message path, which post no reset at
all. -/
theorem topMoves_cleanup_resets_multipv :
    (∀ (s : EState) (r : Nat) (mv : Option String),
      s.top = some r → 0 < s.expectedMultipv →
      Event.post "setoption name multipv value 1" ∈ (stepCmd s (.msgBestmove mv)).2)
    ∧ (∀ (s : EState) (r : Nat),
      s.top = some r → (⟨ReqKind.top, r⟩ : Timer) ∈ s.liveTimers →
      Event.post "setoption name multipv value 1" ∈
        (stepCmd s (.fire ⟨ReqKind.top, r⟩)).2)
    ∧ (∀ s : EState,
        Event.post "setoption name multipv value 1" ∉ (stepCmd s .stop).2)
    ∧ (∀ (s : EState) (text : String),
        Event.post "setoption name multipv value 1" ∉ (stepCmd s (.msgError text)).2) := by
  refine ⟨?_, ?_, ?_, ?_⟩
  · intro s r mv ht hexp
    by_cases harr : (collectMoves s.expectedMultipv s.topMoves).isEmpty
    · simp [stepCmd, stepBestmove, ht, hexp, harr]
    · simp [stepCmd, stepBestmove, ht, hexp, harr]
  · intro s r ht hlive
    simp [stepCmd, stepFire, hlive, ht]
  · intro s
    exact stopCalc_no_reset s
  · intro s text
    have hne : ("setoption name multipv value 1" : String) ≠ "stop" := by decide
    cases hc : s.current with
    | none =>
        cases ht : s.top with
        | none => simp [stepCmd, stepError, hc, ht]
        | some rT =>
            cases hl : (clearMT s).settled.lookup rT with
            | none =>
                simp [stepCmd, stepError, hc, ht, settleReq_of_unsettled _ hl]
            | some o' =>
                simp [stepCmd, stepError, hc, ht, settleReq_of_settled _ hl]
    | some rc =>
        cases hl : (clearMT s).settled.lookup rc with
        | none =>
            cases ht : ({ clearMT s with
                settled := (rc, Outcome.err (.engineErrorMsg text)) :: (clearMT s).settled,
                current := none } : EState).top with
            | none =>
                simp [stepCmd, stepError, hc, ht, settleReq_of_unsettled _ hl]
            | some rT =>
                cases hl2 : ((rc, Outcome.err (.engineErrorMsg text)) ::
                    (clearMT s).settled).lookup rT with
                | none =>
                    have hl2' : ({ clearMT s with
                        settled := (rc, Outcome.err (.engineErrorMsg text)) ::
                          (clearMT s).settled,
                        current := none } : EState).settled.lookup rT = none := hl2
                    simp [stepCmd, stepError, hc, ht, settleReq_of_unsettled _ hl,
                          settleReq_of_unsettled _ hl2', settleReq_no_post]
                | some o2 =>
                    have hl2' : ({ clearMT s with
                        settled := (rc, Outcome.err (.engineErrorMsg text)) ::
                          (clearMT s).settled,
                        current := none } : EState).settled.lookup rT = some o2 := hl2
                    simp [stepCmd, stepError, hc, ht, settleReq_of_unsettled _ hl,
                          settleReq_of_settled _ hl2', settleReq_no_post]
        | some o' =>
            cases ht : ({ clearMT s with current := none } : EState).top with
            | none =>
                simp [stepCmd, stepError, hc, ht, settleReq_of_settled _ hl]
            | some rT =>
                cases hl2 : (clearMT s).settled.lookup rT with
                | none =>
                    have hl2' : ({ clearMT s with current := none } :
                        EState).settled.lookup rT = none := hl2
                    simp [stepCmd, stepError, hc, ht, settleReq_of_settled _ hl,
                          settleReq_of_unsettled _ hl2', settleReq_no_post]
                | some o2 =>
                    have hl2' : ({ clearMT s with current := none } :
                        EState).settled.lookup rT = some o2 := hl2
                    simp [stepCmd, stepError, hc, ht, settleReq_of_settled _ hl,
                          settleReq_of_settled _ hl2', settleReq_no_post]

/-- Closed instance of the amended C4 at a session with a pending
top-moves request: the successful `bestmove` path and the timeout path
post the reset. -/
theorem topMoves_cleanup_resets_multipv_witness :
    Event.post "setoption name multipv value 1" ∈
      (stepCmd (runCmds initState [.getTopMoves "rnbq" 10 3,
        .msgInfo (some 1) (some "e2e4")]) (.msgBestmove (some "e2e4"))).2
    ∧ Event.post "setoption name multipv value 1" ∈
        (stepCmd (stepCmd initState (.getTopMoves "rnbq" 10 3)).1
          (.fire ⟨ReqKind.top, 0⟩)).2 := by
  constructor
  · exact topMoves_cleanup_resets_multipv.1
      (runCmds initState [.getTopMoves "rnbq" 10 3, .msgInfo (some 1) (some "e2e4")])
      0 (some "e2e4") (by decide) (by decide)
  · exact topMoves_cleanup_resets_multipv.2.1
      (stepCmd initState (.getTopMoves "rnbq" 10 3)).1 0 (by decide) (by decide)

/-- Claim C2: while a top-moves request is pending, an `info multipv`
line stores its first PV move under its rank with `Map.set` semantics —
a later line for the same rank overwrites the earlier one and leaves
other ranks untouched — and on the terminal `bestmove` the promise
resolves with `collectMoves`, the stored moves for ranks
`1..expectedMultipv` in rank order (absent ranks skipped), whenever
that list is nonempty.  In particular, with rank 2 arriving before
rank 1, rank 1 arriving twice with different moves, and rank 3
reported, `getTopMoves(fen, depth, 3)` resolves with the 3-element
list using the last reported move for each rank, in rank order. -/
theorem topMoves_accumulate_and_resolve :
    (∀ (s : EState) (r k : Nat) (m : String), s.top = some r →
      (stepCmd s (.msgInfo (some k) (some m))).1.topMoves = mapSet s.topMoves k m)
    ∧ (∀ (tm : List (Nat × String)) (k : Nat) (v : String),
        mapGet (mapSet tm k v) k = some v)
    ∧ (∀ (tm : List (Nat × String)) (k k' : Nat) (v : String), k' ≠ k →
        mapGet (mapSet tm k v) k' = mapGet tm k')
    ∧ (∀ (s : EState) (r : Nat) (mv : Option String),
        Reachable s → s.top = some r → 0 < s.expectedMultipv →
        (collectMoves s.expectedMultipv s.topMoves).isEmpty = false →
        (stepCmd s (.msgBestmove mv)).1.settled.lookup r =
          some (.moves (collectMoves s.expectedMultipv s.topMoves)))
    ∧ ((runCmds initState
        [.getTopMoves "rnbq" 10 3, .msgInfo (some 2) (some "a7a6"),
         .msgInfo (some 1) (some "b7b6"), .msgInfo (some 3) (some "c7c6"),
         .msgInfo (some 1) (some "d7d5"), .msgBestmove (some "e2e4")]).settled.lookup 0
        = some (.moves ["d7d5", "a7a6", "c7c6"])) := by
  refine ⟨?_, ?_, ?_, ?_, by decide⟩
  · intro s r k m ht
    simp [stepCmd, stepInfo, ht]
  · intro tm k v
    induction tm with
    | nil => simp [mapSet, mapGet]
    | cons hd tl ih =>
        by_cases hk : hd.1 = k
        · simp [mapSet, mapGet, hk]
        · simp [mapSet, mapGet, hk, ih]
  · intro tm k k' v hne
    induction tm with
    | nil => simp [mapSet, mapGet, hne, Ne.symm hne]
    | cons hd tl ih =>
        by_cases hk : hd.1 = k
        · simp [mapSet, mapGet, hk, hne, Ne.symm hne]
        · by_cases hk' : hd.1 = k'
          · simp [mapSet, mapGet, hk, hk', hne, Ne.symm hne]
          · simp [mapSet, mapGet, hk, hk', ih]
  · intro s r mv hreach ht hexp harr
    have hInv := inv_reachable hreach
    obtain ⟨hkT, hsT⟩ := hInv.topKind r ht
    have hsT1 : (clearMT s).settled.lookup r = none := hsT
    have hstep : (stepCmd s (.msgBestmove mv)).1 =
        { clearMT s with
            settled := (r, Outcome.moves
              (collectMoves s.expectedMultipv s.topMoves)) :: s.settled,
            top := none, topMoves := [], expectedMultipv := 0 } := by
      simp [stepCmd, stepBestmove, ht, hexp, harr, settleReq_of_unsettled _ hsT1,
            clearMT_settled]
    rw [hstep]
    show ((r, Outcome.moves (collectMoves s.expectedMultipv s.topMoves)) ::
      s.settled).lookup r = _
    exact lookup_cons_self _ _ _

/-- Closed instance of the general resolution conjunct of C2 at the
state reached by `getTopMoves(fen, 10, 3)` followed by three info
lines. -/
theorem topMoves_accumulate_and_resolve_witness :
    (stepCmd (runCmds initState
      [.getTopMoves "rnbq" 10 3, .msgInfo (some 1) (some "e2e4"),
       .msgInfo (some 2) (some "d2d4")]) (.msgBestmove (some "e2e4"))).1.settled.lookup 0
      = some (.moves ["e2e4", "d2d4"]) := by
  exact topMoves_accumulate_and_resolve.2.2.2.1
    (runCmds initState
      [.getTopMoves "rnbq" 10 3, .msgInfo (some 1) (some "e2e4"),
       .msgInfo (some 2) (some "d2d4")])
    0 (some "e2e4")
    (Reachable.next (Reachable.next (Reachable.next Reachable.init
      (Cmd.getTopMoves "rnbq" 10 3)) (Cmd.msgInfo (some 1) (some "e2e4")))
      (Cmd.msgInfo (some 2) (some "d2d4")))
    (by decide) (by decide) (by decide)

/-- Claim C10: `getTopMoves` clamps the requested candidate count into
1–5 instead of rejecting out-of-range values — `expectedMultipv`
becomes `max(1, min(5, count))`, so a count of zero or below searches
with multipv 1 and a count above 5 with multipv 5 — the clamped value
is what is sent in the `setoption` command, and the collected list
never has more than `expectedMultipv` elements. -/
theorem getTopMoves_clamps_count :
    (∀ c : Int, 1 ≤ clampCount c ∧ clampCount c ≤ 5)
    ∧ (∀ c : Int, c ≤ 0 → clampCount c = 1)
    ∧ (∀ c : Int, 5 ≤ c → clampCount c = 5)
    ∧ (∀ c : Int, 1 ≤ c → c ≤ 5 → clampCount c = c.toNat)
    ∧ (∀ (s : EState) (fen : String) (d c : Int),
        (stepCmd s (.getTopMoves fen d c)).1.expectedMultipv = clampCount c
        ∧ Event.post ("setoption name multipv value " ++ toString (clampCount c)) ∈
            (stepCmd s (.getTopMoves fen d c)).2)
    ∧ (∀ (n : Nat) (tm : List (Nat × String)), (collectMoves n tm).length ≤ n) := by
  refine ⟨?_, ?_, ?_, ?_, ?_, ?_⟩
  · intro c
    unfold clampCount
    omega
  · intro c hc
    unfold clampCount
    omega
  · intro c hc
    unfold clampCount
    omega
  · intro c h1 h5
    unfold clampCount
    omega
  · intro s fen d c
    constructor
    · rfl
    · show Event.post ("setoption name multipv value " ++ toString (clampCount c)) ∈
        (stepGetTopMoves s fen d c).2
      simp [stepGetTopMoves]
  · intro n tm
    calc (collectMoves n tm).length
        ≤ (List.range n).length := List.length_filterMap_le _ _
      _ = n := List.length_range n

/-- Closed instance of C10: counts 0 and 9 clamp to 1 and 5, and the
posted `setoption` command carries the clamped value. -/
theorem getTopMoves_clamps_count_witness :
    clampCount 0 = 1 ∧ clampCount 9 = 5
    ∧ (stepCmd initState (.getTopMoves "rnbq" 10 9)).1.expectedMultipv = clampCount 9
    ∧ Event.post ("setoption name multipv value " ++ toString (clampCount 9)) ∈
        (stepCmd initState (.getTopMoves "rnbq" 10 9)).2 := by
  have h5 := (getTopMoves_clamps_count.2.2.2.2.1) initState "rnbq" 10 9
  exact ⟨getTopMoves_clamps_count.2.1 0 (by decide),
    getTopMoves_clamps_count.2.2.1 9 (by decide), h5.1, h5.2⟩

end ChessEngine
